import Mathlib

/-!
Verification of the mb-parts catalog pipeline.

This file is a shallow embedding of the repository's core functions:
the part-number normalizer, the extraction engine's JSON walks, the
discovery crawler loops, the rotating-batch price refresher, the
snapshot filter, and the chunked index builder.  Pure string and
list manipulation is translated directly from the source; network
fetches, file access, HTML/JSON parsing and URL resolution are
modelled as explicit oracle inputs (environments), since they are
external collaborators of the code under verification.
-/

namespace MbParts

/-! ## Normalizer (src: `normalizePartNumber`, `isAllowedPartNumber`, `isExcludedPartNumber`) -/

/-- One character of JavaScript `toUpperCase`, restricted to the ASCII
range that matters downstream (the subsequent filter keeps only
`[A-Z0-9]`, so the mapping of non-ASCII letters is irrelevant).
Character ranges are phrased on code points. -/
def upChar (c : Char) : Char :=
  -- 97 and 122 are the code points of 'a' and 'z'.
  if 97 ≤ c.toNat ∧ c.toNat ≤ 122 then Char.ofNat (c.toNat - 32) else c

/-- Characters kept by the regex `[^A-Z0-9]` removal
(65–90 are 'A'–'Z', 48–57 are '0'–'9'). -/
def isPartChar (c : Char) : Bool :=
  (65 ≤ c.toNat && c.toNat ≤ 90) || (48 ≤ c.toNat && c.toNat ≤ 57)

/-- `normalizePartNumber(value)`: uppercase then strip every character
outside `[A-Z0-9]`. -/
def normalizePartNumber (s : String) : String :=
  ((s.data.map upChar).filter isPartChar).asString

/-- JavaScript `s.startsWith(p)` (character-list prefix test). -/
def strStarts (p s : String) : Bool := List.isPrefixOf p.data s.data

/-- `isAllowedPartNumber(partNumber, prefixes)`. -/
def isAllowedPartNumber (partNumber : String) (prefixes : List String) : Bool :=
  prefixes.any (fun p => strStarts p partNumber)

/-- `isExcludedPartNumber(partNumber)`: the regex `/^A0{10,}$/`. -/
def isExcludedPartNumber (partNumber : String) : Bool :=
  match partNumber.data with
  | [] => false
  | c :: rest => c = 'A' && rest.all (· = '0') && decide (10 ≤ rest.length)

lemma upChar_of_isPartChar {c : Char} (h : isPartChar c = true) : upChar c = c := by
  unfold isPartChar at h
  unfold upChar
  rw [if_neg]
  rintro ⟨h1, _⟩
  rcases Bool.or_eq_true_iff.mp h with h' | h' <;>
    rcases Bool.and_eq_true_iff.mp h' with ⟨ha, hb⟩ <;>
    · have ha' := of_decide_eq_true ha
      have hb' := of_decide_eq_true hb
      omega

lemma filter_isPartChar_idem (l : List Char) :
    ((l.filter isPartChar).map upChar).filter isPartChar = l.filter isPartChar := by
  induction l with
  | nil => rfl
  | cons c cs ih =>
    by_cases h : isPartChar c = true
    · simp only [List.filter_cons, h, if_pos, List.map_cons, upChar_of_isPartChar h,
        List.filter_cons]
      simp [h, ih]
    · simp only [List.filter_cons, Bool.not_eq_true] at *
      simp [h, ih]

/-- C9: `normalizePartNumber` is idempotent. -/
theorem normalizePartNumber_idem (s : String) :
    normalizePartNumber (normalizePartNumber s) = normalizePartNumber s := by
  unfold normalizePartNumber
  congr 1
  have h : (((s.data.map upChar).filter isPartChar).asString).data
      = (s.data.map upChar).filter isPartChar := rfl
  rw [h]
  exact filter_isPartChar_idem _

example : normalizePartNumber "a309-999" = "A309999" := by decide

/-! ## Data model -/

/-- Availability status tags (`'in_stock' | 'out_of_stock' | 'unknown'`). -/
inductive AvStatus where
  | in_stock
  | out_of_stock
  | unknown
deriving DecidableEq, Repr

/-- `Availability = { status, label }`. -/
structure Availability where
  status : AvStatus
  label : String
deriving DecidableEq, Repr

def unknownAvailability : Availability := { status := .unknown, label := "Unknown" }

/-- `PartItem = { partNumber, name, price?, url, availability }`. -/
structure PartItem where
  partNumber : String
  name : String
  price : Option String := none
  url : String
  availability : Availability
deriving DecidableEq, Repr

/-- Placeholder for the (never reachable) out-of-bounds array read. -/
def dummyItem : PartItem :=
  { partNumber := "", name := "", url := "", availability := unknownAvailability }

/-- `PriceEntry = { price?, availability?, updatedAt }`.  Timestamps are
modelled as parsed milliseconds (`Date.parse`); `none` stands for an
absent or unparseable timestamp string. -/
structure PriceEntry where
  price : Option String
  availability : Option Availability
  updatedAt : Option Int
deriving DecidableEq, Repr

/-- `ProductDetailMeta = { availability, price? }`. -/
structure ProductDetailMeta where
  availability : Availability
  price : Option String
deriving DecidableEq, Repr

/-! JavaScript plain objects used as string-keyed maps are modelled as
association lists in insertion order. -/

/-- Key lookup (`obj[key]`). -/
def lookupA {α : Type} (ps : List (String × α)) (k : String) : Option α :=
  match ps with
  | [] => none
  | (k', v) :: rest => if k' = k then some v else lookupA rest k

/-- Key assignment (`obj[key] = v`): replace in place, else append. -/
def setA {α : Type} (ps : List (String × α)) (k : String) (v : α) : List (String × α) :=
  match ps with
  | [] => [(k, v)]
  | (k', v') :: rest => if k' = k then (k', v) :: rest else (k', v') :: setA rest k v

lemma lookupA_setA_self {α : Type} (ps : List (String × α)) (k : String) (v : α) :
    lookupA (setA ps k v) k = some v := by
  induction ps with
  | nil => simp [setA, lookupA]
  | cons p rest ih =>
    by_cases h : p.1 = k
    · simp [setA, lookupA, h]
    · simp [setA, lookupA, h, ih]

lemma lookupA_setA_other {α : Type} (ps : List (String × α)) (k k' : String) (v : α)
    (h : k ≠ k') : lookupA (setA ps k v) k' = lookupA ps k' := by
  induction ps with
  | nil => simp [setA, lookupA, h]
  | cons p rest ih =>
    by_cases hp : p.1 = k
    · subst hp
      simp [setA, lookupA, h, ih]
    · simp only [setA, hp, if_neg, lookupA]
      by_cases hp' : p.1 = k' <;> simp [hp', ih]

/-! ## Enrichment Refresher (src part_003: `fetchProductDetailMeta`, `syncPriceBatch`)

Network transport is an oracle `DetailEnv : url → Option ProductDetailMeta`;
`none` stands for a network error or a non-success status (both are caught
inside `fetchProductDetailMeta`).  The in-process success cache is the
identity on a deterministic environment and is therefore not threaded. -/

def DetailEnv : Type := String → Option ProductDetailMeta

/-- `fetchProductDetailMeta(url)`: any failure degrades to
`{ availability: unknown }` with no price. -/
def fetchDetailMeta (env : DetailEnv) (url : String) : ProductDetailMeta :=
  match env url with
  | none => { availability := unknownAvailability, price := none }
  | some m => m

/-- `7 * 24 * 60 * 60 * 1000` (`staleAfterMs`). -/
def staleAfterMs : Int := 604800000

/-- The staleness test of `syncPriceBatch`:
`!entry || !Number.isFinite(entryTs) || nowMs - entryTs > staleAfterMs`. -/
def entryIsStale (nowMs : Int) (e : Option PriceEntry) : Bool :=
  match e with
  | none => true
  | some e =>
    match e.updatedAt with
    | none => true
    | some ts => decide (nowMs - ts > staleAfterMs)

/-- The candidate-selection loop of `syncPriceBatch`
(`for (let i = 0; i < items.length && candidates.length < B; i += 1)`).
`fuel` bounds the remaining iterations (callers pass `M`, which the
loop never exceeds); recursion on it keeps the function
kernel-reducible.  Returns the selected `(idx, item)` pairs together
with the number of loop iterations executed (the scan length). -/
def selectScan (items : List PartItem) (prices : List (String × PriceEntry)) (nowMs : Int)
    (B M cursor : Nat) : Nat → Nat → List (Nat × PartItem) → List (Nat × PartItem) × Nat
  | 0, i, acc => (acc, i)
  | fuel + 1, i, acc =>
    if i < M ∧ acc.length < B then
      let idx := (cursor + i) % M
      let item := items.getD idx dummyItem
      if entryIsStale nowMs (lookupA prices item.partNumber) then
        selectScan items prices nowMs B M cursor fuel (i + 1) (acc ++ [(idx, item)])
      else
        selectScan items prices nowMs B M cursor fuel (i + 1) acc
    else
      (acc, i)

/-- The staleness of the item at scan offset `j` (the condition tested
by iteration `j` of the selection loop). -/
def scanStaleAt (items : List PartItem) (prices : List (String × PriceEntry)) (nowMs : Int)
    (M cursor j : Nat) : Bool :=
  entryIsStale nowMs (lookupA prices (items.getD ((cursor + j) % M) dummyItem).partNumber)

/-- The `(idx, item)` pair the scan selects at offset `j`. -/
def scanPick (items : List PartItem) (M cursor j : Nat) : Nat × PartItem :=
  ((cursor + j) % M, items.getD ((cursor + j) % M) dummyItem)

/-- Full characterization of the selection loop: starting from offset `i`
with accumulator `acc`, the loop stops at some offset `e ≤ M`, the
result extends `acc` with exactly the stale offsets in `[i, e)`, the
loop stops only at the end of the item list or with a full batch, and
every executed iteration started with fewer than `B` candidates. -/
lemma selectScan_spec (items : List PartItem) (prices : List (String × PriceEntry))
    (nowMs : Int) (B M cursor : Nat) :
    ∀ n i acc, M - i ≤ n → i ≤ M → acc.length ≤ B →
    ∀ cands e, selectScan items prices nowMs B M cursor n i acc = (cands, e) →
      i ≤ e ∧ e ≤ M ∧
      cands = acc ++ ((List.range' i (e - i)).filter
        (scanStaleAt items prices nowMs M cursor)).map (scanPick items M cursor) ∧
      (e = M ∨ cands.length = B) ∧
      (∀ j, i ≤ j → j < e →
        acc.length + ((List.range' i (j - i)).filter
          (scanStaleAt items prices nowMs M cursor)).length < B) := by
  intro n
  induction n with
  | zero =>
    intro i acc hn hi hacc cands e heq
    have hiM : i = M := by omega
    rw [selectScan] at heq
    cases heq
    refine ⟨le_refl _, by omega, by simp, Or.inl hiM, ?_⟩
    intro j hj hj'
    omega
  | succ n ih =>
    intro i acc hn hi hacc cands e heq
    rw [selectScan] at heq
    by_cases h : i < M ∧ acc.length < B
    · rw [if_pos h] at heq
      by_cases hst : scanStaleAt items prices nowMs M cursor i = true
      · rw [if_pos (by exact hst)] at heq
        have hrec := ih (i + 1) (acc ++ [scanPick items M cursor i]) (by omega) (by omega)
          (by simp; omega) cands e ?hq
        case hq => simpa [scanPick] using heq
        obtain ⟨he1, he2, he3, he4, he5⟩ := hrec
        refine ⟨by omega, he2, ?_, he4, ?_⟩
        · have hrange : List.range' i (e - i) = i :: List.range' (i + 1) (e - (i + 1)) := by
            have : e - i = (e - (i + 1)) + 1 := by omega
            rw [this, List.range'_succ]
          rw [hrange, List.filter_cons, if_pos hst, List.map_cons, he3, List.append_assoc,
            List.singleton_append]
        · intro j hj hj'
          rcases Nat.eq_or_lt_of_le hj with hji | hji
          · subst hji
            simpa using h.2
          · have := he5 j (by omega) hj'
            have hrange : List.range' i (j - i) = i :: List.range' (i + 1) (j - (i + 1)) := by
              have : j - i = (j - (i + 1)) + 1 := by omega
              rw [this, List.range'_succ]
            rw [hrange, List.filter_cons, if_pos hst]
            simp only [List.length_cons, List.length_append, List.length_singleton] at this ⊢
            omega
      · rw [if_neg (by exact hst)] at heq
        have hrec := ih (i + 1) acc (by omega) (by omega) hacc cands e heq
        obtain ⟨he1, he2, he3, he4, he5⟩ := hrec
        refine ⟨by omega, he2, ?_, he4, ?_⟩
        · have hrange : List.range' i (e - i) = i :: List.range' (i + 1) (e - (i + 1)) := by
            have : e - i = (e - (i + 1)) + 1 := by omega
            rw [this, List.range'_succ]
          rw [hrange, List.filter_cons, if_neg (by simpa using hst), he3]
        · intro j hj hj'
          rcases Nat.eq_or_lt_of_le hj with hji | hji
          · subst hji
            simpa using h.2
          · have := he5 j (by omega) hj'
            have hrange : List.range' i (j - i) = i :: List.range' (i + 1) (j - (i + 1)) := by
              have : j - i = (j - (i + 1)) + 1 := by omega
              rw [this, List.range'_succ]
            rw [hrange, List.filter_cons, if_neg (by simpa using hst)]
            omega
    · rw [if_neg h] at heq
      cases heq
      refine ⟨le_refl _, hi, by simp, ?_, ?_⟩
      · by_cases hi' : i < M
        · right
          have : ¬ acc.length < B := fun hc => h ⟨hi', hc⟩
          omega
        · left
          omega
      · intro j hj hj'
        omega

/-- One write of the enrichment merge loop:
`priceSnapshot.prices[pn] = { price, availability, updatedAt }`.  The
candidates are fetched in concurrency chunks of 8, but the writes land
in candidate order, so the merge is a left fold. -/
def writeCandidate (env : DetailEnv) (nowMs : Int)
    (ps : List (String × PriceEntry)) (c : Nat × PartItem) : List (String × PriceEntry) :=
  let meta := fetchDetailMeta env c.2.url
  setA ps c.2.partNumber
    { price := meta.price, availability := some meta.availability, updatedAt := some nowMs }

/-- The inputs `syncPriceBatch` reads from disk: the base-snapshot item
list, the price snapshot's `prices` object, and the persisted cursor
state (`none` when no state file exists or its cursor is not a finite
number). -/
structure SyncInput where
  items : List PartItem
  prices : List (String × PriceEntry)
  stateCursor : Option Int
deriving Repr

/-- What one `syncPriceBatch` invocation writes and returns.
`cursorUsed`, `scanned` and `candidates` record directly observable
intermediates of the run (the clamped starting cursor, the selection
scan length, and the `candidates`/`candidateIndexes` arrays). -/
structure SyncOutput where
  prices : List (String × PriceEntry)
  nextCursor : Nat
  updated : Nat
  cursorUsed : Nat
  scanned : Nat
  candidates : List (Nat × PartItem)
deriving Repr

/-- The cursor clamp of `syncPriceBatch`:
`cursor = Math.max(0, state.cursor % Math.max(items.length, 1))` when the
persisted cursor is a finite number, else `0`.  JavaScript `%` on
numbers truncates toward zero, i.e. `Int.tmod`. -/
def clampCursor (sc : Option Int) (M : Nat) : Nat :=
  match sc with
  | some c => (max 0 (Int.tmod c (max ((M : Int)) 1))).toNat
  | none => 0

/-- `syncPriceBatch(batchSize)` (src part_003 lines 919-980), with file
and network I/O made explicit. -/
def syncPriceBatch (env : DetailEnv) (nowMs : Int) (inp : SyncInput) (batchSize : Int) :
    SyncOutput :=
  let B := (max 1 (min batchSize 5000)).toNat
  let items := inp.items
  let M := items.length
  let cursor : Nat := clampCursor inp.stateCursor M
  if M = 0 then
    { prices := inp.prices, nextCursor := 0, updated := 0, cursorUsed := cursor,
      scanned := 0, candidates := [] }
  else
    let scan := selectScan items inp.prices nowMs B M cursor M 0 []
    let cands := scan.1
    let prices1 := cands.foldl (writeCandidate env nowMs) inp.prices
    let lastIndex := match cands.getLast? with
      | some c => c.1
      | none => cursor
    { prices := prices1, nextCursor := (lastIndex + 1) % M, updated := cands.length,
      cursorUsed := cursor, scanned := scan.2, candidates := cands }

/-- Repeated invocations of `syncPriceBatch` against the same base
snapshot, threading the persisted price snapshot and cursor state.
Returns the final persisted state and the list of per-invocation
outputs in order. -/
def syncRun (env : DetailEnv) (nowMs : Int) (items : List PartItem) (batchSize : Int) :
    Nat → List (String × PriceEntry) × Option Int →
    (List (String × PriceEntry) × Option Int) × List SyncOutput
  | 0, st => (st, [])
  | k + 1, st =>
    let out := syncPriceBatch env nowMs ⟨items, st.1, st.2⟩ batchSize
    let rest := syncRun env nowMs items batchSize k (out.prices, some ((out.nextCursor : Int)))
    (rest.1, out :: rest.2)

/-! ### Selection-scan lemmas -/

lemma filter_range_length_of_pattern (p : Nat → Bool) (S : Nat)
    (hpat : ∀ i < M0, p i = decide (i < S)) :
    ∀ j ≤ M0, ((List.range j).filter p).length = min j S := by
  intro j
  induction j with
  | zero => intro; simp
  | succ j ih =>
    intro hj
    rw [List.range_succ, List.filter_append, List.length_append, ih (by omega)]
    by_cases hjS : j < S
    · rw [List.filter_cons, if_pos (by rw [hpat j (by omega)]; exact decide_eq_true hjS)]
      simp
      omega
    · rw [List.filter_cons, if_neg (by rw [hpat j (by omega)]; simpa using hjS)]
      simp
      omega

lemma filter_range_eq_of_pattern (p : Nat → Bool) (S : Nat)
    (hpat : ∀ i < M0, p i = decide (i < S)) :
    ∀ j ≤ M0, (List.range j).filter p = List.range (min j S) := by
  intro j
  induction j with
  | zero => intro; simp
  | succ j ih =>
    intro hj
    rw [List.range_succ, List.filter_append, ih (by omega)]
    by_cases hjS : j < S
    · rw [List.filter_cons, if_pos (by rw [hpat j (by omega)]; exact decide_eq_true hjS)]
      have h1 : min j S = j := by omega
      have h2 : min (j + 1) S = j + 1 := by omega
      rw [h1, h2, List.filter_nil, List.range_succ]
    · rw [List.filter_cons, if_neg (by rw [hpat j (by omega)]; simpa using hjS)]
      have h1 : min j S = S := by omega
      have h2 : min (j + 1) S = S := by omega
      rw [h1, h2, List.filter_nil, List.append_nil]

/-- Under an "interval" staleness pattern (`i` stale iff `i < S`), the
selection scan selects exactly the first `min B S` offsets and scans at
least that far. -/
lemma selectScan_pattern (items : List PartItem) (prices : List (String × PriceEntry))
    (nowMs : Int) (B M cursor S : Nat)
    (hB : 1 ≤ B) (_hS : 1 ≤ S) (hSM : S ≤ M)
    (hpat : ∀ i < M, scanStaleAt items prices nowMs M cursor i = decide (i < S)) :
    ∀ cands e, selectScan items prices nowMs B M cursor M 0 [] = (cands, e) →
      cands = (List.range (min B S)).map (scanPick items M cursor) ∧
      min B S ≤ e ∧ e ≤ M := by
  intro cands e heq
  obtain ⟨h0, heM, hcands, hdisj, hbound⟩ :=
    selectScan_spec items prices nowMs B M cursor M 0 [] (by omega) (by omega) (by simp)
      cands e heq
  simp only [List.nil_append, Nat.sub_zero, ← List.range_eq_range', List.length_nil,
    Nat.zero_add] at hcands hbound
  have hfil := @filter_range_eq_of_pattern M (scanStaleAt items prices nowMs M cursor)
    S hpat e heM
  have hlenfil := @filter_range_length_of_pattern M
    (scanStaleAt items prices nowMs M cursor) S hpat
  have hlen : cands.length = min e S := by
    rw [hcands, List.length_map, hlenfil e heM]
  have hmin : min e S = min B S := by
    by_cases hBS : B < S
    · have heB : e ≤ B := by
        by_contra hgt
        push_neg at hgt
        have := hbound B (by omega)
        rw [hlenfil B (by omega)] at this
        omega
      rcases hdisj with hM | hBfull
      · omega
      · omega
    · push_neg at hBS
      rcases hdisj with hM | hBfull
      · omega
      · rw [hlen] at hBfull
        omega
  refine ⟨by rw [hcands, hfil, hmin], by omega, heM⟩

/-! ### Merge-fold lemmas -/

lemma lookup_foldWrite_notMem (env : DetailEnv) (nowMs : Int)
    (cands : List (Nat × PartItem)) (pn : String)
    (hmem : pn ∉ cands.map (fun c => c.2.partNumber)) :
    ∀ ps, lookupA (cands.foldl (writeCandidate env nowMs) ps) pn = lookupA ps pn := by
  induction cands with
  | nil => intro ps; rfl
  | cons c rest ih =>
    intro ps
    simp only [List.map_cons, List.mem_cons, not_or] at hmem
    rw [List.foldl_cons, ih hmem.2, writeCandidate,
      lookupA_setA_other _ _ _ _ (fun h => hmem.1 h.symm)]

lemma lookup_foldWrite_updatedAt (env : DetailEnv) (nowMs : Int)
    (cands : List (Nat × PartItem)) (pn : String)
    (hmem : pn ∈ cands.map (fun c => c.2.partNumber)) :
    ∀ ps, ∃ pr av, lookupA (cands.foldl (writeCandidate env nowMs) ps) pn
      = some ⟨pr, av, some nowMs⟩ := by
  induction cands with
  | nil => simp at hmem
  | cons c rest ih =>
    intro ps
    simp only [List.map_cons, List.mem_cons] at hmem
    by_cases hr : pn ∈ rest.map (fun c => c.2.partNumber)
    · exact ih hr _
    · have hc : c.2.partNumber = pn := by tauto
      rw [List.foldl_cons, lookup_foldWrite_notMem env nowMs rest pn hr, writeCandidate]
      subst hc
      exact ⟨_, _, lookupA_setA_self _ _ _⟩

lemma lookup_foldWrite_mem_nodup (env : DetailEnv) (nowMs : Int)
    (cands : List (Nat × PartItem)) (idx : Nat) (it : PartItem)
    (hnd : (cands.map (fun c => c.2.partNumber)).Nodup)
    (hmem : (idx, it) ∈ cands) :
    ∀ ps, lookupA (cands.foldl (writeCandidate env nowMs) ps) it.partNumber
      = some { price := (fetchDetailMeta env it.url).price,
               availability := some (fetchDetailMeta env it.url).availability,
               updatedAt := some nowMs } := by
  induction cands with
  | nil => simp at hmem
  | cons c rest ih =>
    intro ps
    simp only [List.map_cons, List.nodup_cons] at hnd
    rcases List.mem_cons.mp hmem with hhead | htail
    · subst hhead
      simp only [List.foldl_cons]
      rw [lookup_foldWrite_notMem env nowMs rest _ hnd.1, writeCandidate,
        lookupA_setA_self]
    · exact ih hnd.2 htail _

/-! ### The one-invocation step lemma -/

lemma getD_partNumber_inj (items : List PartItem)
    (hnd : (items.map PartItem.partNumber).Nodup) (a b : Nat)
    (ha : a < items.length) (hb : b < items.length)
    (h : (items.getD a dummyItem).partNumber = (items.getD b dummyItem).partNumber) :
    a = b := by
  rw [List.getD_eq_getElem items dummyItem ha, List.getD_eq_getElem items dummyItem hb] at h
  have ha' : a < (items.map PartItem.partNumber).length := by simpa using ha
  have hb' : b < (items.map PartItem.partNumber).length := by simpa using hb
  have : (items.map PartItem.partNumber)[a] = (items.map PartItem.partNumber)[b] := by
    simpa using h
  exact (List.Nodup.getElem_inj_iff hnd).mp this

lemma add_mod_inj (c a b M : Nat) (ha : a < M) (hb : b < M)
    (h : (c + a) % M = (c + b) % M) : a = b := by
  have h1 : (c + a) ≡ (c + b) [MOD M] := h
  have h2 : a ≡ b [MOD M] := Nat.ModEq.add_left_cancel' c h1
  have := h2.eq_of_lt_of_lt ha hb
  exact this

/-- One invocation of `syncPriceBatch`, started at a persisted cursor
`c`, when the stale entries are exactly the circular interval of `S`
positions starting at `c`: it selects the first `min B S` of them,
advances the cursor past the selection, and leaves a stale interval of
`S - min B S` positions starting at the new cursor. -/
lemma syncPriceBatch_step (env : DetailEnv) (nowMs : Int) (items : List PartItem)
    (prices : List (String × PriceEntry)) (batchSize : Int) (c S : Nat)
    (hM : 0 < items.length) (hc : c < items.length)
    (hnd : (items.map PartItem.partNumber).Nodup)
    (hB1 : 1 ≤ batchSize) (hB2 : batchSize ≤ 5000)
    (hS1 : 1 ≤ S) (hSM : S ≤ items.length)
    (hpat : ∀ i < items.length,
      scanStaleAt items prices nowMs items.length c i = decide (i < S))
    (out : SyncOutput)
    (hout : syncPriceBatch env nowMs ⟨items, prices, some ((c : Int))⟩ batchSize = out) :
    out.cursorUsed = c ∧
    out.candidates = (List.range (min batchSize.toNat S)).map (scanPick items items.length c) ∧
    out.updated = min batchSize.toNat S ∧
    min batchSize.toNat S ≤ out.scanned ∧
    out.nextCursor = (c + min batchSize.toNat S) % items.length ∧
    out.prices = out.candidates.foldl (writeCandidate env nowMs) prices ∧
    (∀ i < items.length,
      scanStaleAt items out.prices nowMs items.length
        ((c + min batchSize.toNat S) % items.length) i
        = decide (i < S - min batchSize.toNat S)) := by
  subst hout
  have hB : 1 ≤ batchSize.toNat := by omega
  have hT1 : 1 ≤ min batchSize.toNat S := by omega
  have hTS : min batchSize.toNat S ≤ S := by omega
  have hTM : min batchSize.toNat S ≤ items.length := by omega
  -- normalize the batch size and the cursor clamp
  have hBnorm : (max 1 (min batchSize 5000)).toNat = batchSize.toNat := by omega
  have hcursor : clampCursor (some ((c : Int))) items.length = c := by
    show (max 0 (Int.tmod ((c : Int)) (max ((items.length : Int)) 1))).toNat = c
    have hM1 : max ((items.length : Int)) 1 = ((items.length : Int)) := by omega
    rw [hM1, ← Int.ofNat_tmod, Nat.mod_eq_of_lt hc]
    omega
  rcases hsel : selectScan items prices nowMs batchSize.toNat items.length c items.length 0 []
    with ⟨cands, e⟩
  obtain ⟨hcandeq, hTe, heM⟩ :=
    selectScan_pattern items prices nowMs batchSize.toNat items.length c S hB hS1 hSM hpat
      cands e hsel
  have hred : syncPriceBatch env nowMs ⟨items, prices, some ((c : Int))⟩ batchSize
      = { prices := cands.foldl (writeCandidate env nowMs) prices,
          nextCursor := ((match cands.getLast? with
            | some p => p.1
            | none => c) + 1) % items.length,
          updated := cands.length, cursorUsed := c, scanned := e, candidates := cands } := by
    rw [syncPriceBatch]
    dsimp only
    rw [hBnorm, hcursor, if_neg (by omega : ¬ (items.length = 0)), hsel]
  rw [hred]
  dsimp only
  -- the last selected index
  have hlast : cands.getLast? = some (scanPick items items.length c (min batchSize.toNat S - 1)) := by
    rw [hcandeq]
    have : List.range (min batchSize.toNat S)
        = List.range (min batchSize.toNat S - 1) ++ [min batchSize.toNat S - 1] := by
      conv_lhs => rw [show min batchSize.toNat S = (min batchSize.toNat S - 1) + 1 by omega]
      rw [List.range_succ]
    rw [this, List.map_append, List.map_singleton, List.getLast?_concat]
  have hnext : ((match cands.getLast? with
      | some p => p.1
      | none => c) + 1) % items.length = (c + min batchSize.toNat S) % items.length := by
    rw [hlast]
    show ((c + (min batchSize.toNat S - 1)) % items.length + 1) % items.length
      = (c + min batchSize.toNat S) % items.length
    rw [Nat.mod_add_mod]
    congr 1
    omega
  refine ⟨rfl, hcandeq, ?_, by omega, hnext, rfl, ?_⟩
  · rw [hcandeq, List.length_map, List.length_range]
  -- the new staleness pattern
  intro i hi
  have hpos : ∀ x : Nat, (((c + x) % items.length) + i) % items.length
      = (c + (x + i)) % items.length := by
    intro x
    rw [Nat.mod_add_mod, Nat.add_assoc]
  have hcandpns : cands.map (fun p => p.2.partNumber)
      = (List.range (min batchSize.toNat S)).map
          (fun t => (items.getD ((c + t) % items.length) dummyItem).partNumber) := by
    rw [hcandeq, List.map_map]
    rfl
  by_cases hi2 : min batchSize.toNat S + i < items.length
  · -- untouched position: entry unchanged, old pattern applies
    have hnotmem : (items.getD ((c + (min batchSize.toNat S + i)) % items.length)
        dummyItem).partNumber ∉ cands.map (fun p => p.2.partNumber) := by
      rw [hcandpns]
      intro hmem
      obtain ⟨t, ht, hteq⟩ := List.mem_map.mp hmem
      have ht' : t < min batchSize.toNat S := List.mem_range.mp ht
      have hposa : (c + t) % items.length < items.length := Nat.mod_lt _ (by omega)
      have hposb : (c + (min batchSize.toNat S + i)) % items.length < items.length :=
        Nat.mod_lt _ (by omega)
      have h5 := getD_partNumber_inj items hnd _ _ hposa hposb hteq
      have := add_mod_inj c t (min batchSize.toNat S + i) items.length (by omega) (by omega) h5
      omega
    show entryIsStale nowMs (lookupA (cands.foldl (writeCandidate env nowMs) prices)
        (items.getD ((((c + min batchSize.toNat S) % items.length) + i) % items.length)
          dummyItem).partNumber)
      = decide (i < S - min batchSize.toNat S)
    rw [hpos, lookup_foldWrite_notMem env nowMs cands _ hnotmem]
    have hold := hpat (min batchSize.toNat S + i) hi2
    rw [scanStaleAt] at hold
    rw [hold]
    exact decide_eq_decide.mpr (by omega)
  · -- wrapped-around position: freshly written entry, not stale
    push_neg at hi2
    have ht0 : min batchSize.toNat S + i - items.length < min batchSize.toNat S := by omega
    have hposeq : (c + (min batchSize.toNat S + i)) % items.length
        = (c + (min batchSize.toNat S + i - items.length)) % items.length := by
      conv_lhs => rw [show c + (min batchSize.toNat S + i)
        = c + (min batchSize.toNat S + i - items.length) + items.length by omega]
      rw [Nat.add_mod_right]
    have hmem : (items.getD ((c + (min batchSize.toNat S + i)) % items.length)
        dummyItem).partNumber ∈ cands.map (fun p => p.2.partNumber) := by
      rw [hcandpns, hposeq]
      exact List.mem_map.mpr ⟨min batchSize.toNat S + i - items.length,
        List.mem_range.mpr ht0, rfl⟩
    show entryIsStale nowMs (lookupA (cands.foldl (writeCandidate env nowMs) prices)
        (items.getD ((((c + min batchSize.toNat S) % items.length) + i) % items.length)
          dummyItem).partNumber)
      = decide (i < S - min batchSize.toNat S)
    rw [hpos]
    obtain ⟨pr, av, hlk⟩ := lookup_foldWrite_updatedAt env nowMs cands _ hmem prices
    rw [hlk]
    show decide (nowMs - nowMs > staleAfterMs) = decide (i < S - min batchSize.toNat S)
    have h1 : ¬ (nowMs - nowMs > staleAfterMs) := by
      rw [staleAfterMs]
      omega
    have h2 : ¬ (i < S - min batchSize.toNat S) := by omega
    rw [decide_eq_false h1, decide_eq_false h2]

/-- Invariant of repeated `syncPriceBatch` invocations: starting with a
circular stale interval of `S` positions at cursor `c`, after `j`
invocations the cursor sits at `c + min (j·B) S (mod M)`, the stale
interval has shrunk accordingly, and every position inside the consumed
part of the interval was scanned by some invocation. -/
lemma syncRun_inv (env : DetailEnv) (nowMs : Int) (items : List PartItem) (batchSize : Int)
    (hM : 0 < items.length)
    (hnd : (items.map PartItem.partNumber).Nodup)
    (hB1 : 1 ≤ batchSize) (hB2 : batchSize ≤ 5000) :
    ∀ (j : Nat) (c S : Nat) (prices : List (String × PriceEntry)),
      c < items.length → S ≤ items.length →
      (1 ≤ j → (j - 1) * batchSize.toNat < S) →
      (∀ i < items.length, scanStaleAt items prices nowMs items.length c i = decide (i < S)) →
      ∀ res, syncRun env nowMs items batchSize j (prices, some ((c : Int))) = res →
        res.1.2 = some ((((c + min (j * batchSize.toNat) S) % items.length : Nat) : Int)) ∧
        (∀ i < items.length,
          scanStaleAt items res.1.1 nowMs items.length
            ((c + min (j * batchSize.toNat) S) % items.length) i
            = decide (i < S - min (j * batchSize.toNat) S)) ∧
        res.2.length = j ∧
        (∀ t, t < min (j * batchSize.toNat) S →
          ∃ out ∈ res.2, ∃ i, i < out.scanned ∧
            (out.cursorUsed + i) % items.length = (c + t) % items.length) := by
  intro j
  induction j with
  | zero =>
    intro c S prices hc hSM _hjS hpat res hres
    rw [syncRun] at hres
    subst hres
    have hcc : (c + min (0 * batchSize.toNat) S) % items.length = c := by
      rw [Nat.zero_mul, Nat.min_comm, Nat.min_zero, Nat.add_zero, Nat.mod_eq_of_lt hc]
    refine ⟨by rw [hcc], ?_, rfl, ?_⟩
    · intro i hi
      rw [hcc]
      have := hpat i hi
      rw [this]
      exact decide_eq_decide.mpr (by omega)
    · intro t ht
      omega
  | succ j ih =>
    intro c S prices hc hSM hjS hpat res hres
    have hB : 1 ≤ batchSize.toNat := by omega
    have hmul1 : (j + 1) * batchSize.toNat = j * batchSize.toNat + batchSize.toNat :=
      Nat.succ_mul _ _
    have hmulpred : 1 ≤ j → j * batchSize.toNat = (j - 1) * batchSize.toNat + batchSize.toNat := by
      intro hj
      conv_lhs => rw [show j = (j - 1) + 1 by omega]
      exact Nat.succ_mul _ _
    have hjB : j * batchSize.toNat < S := by
      have := hjS (by omega)
      simpa using this
    have hS1 : 1 ≤ S := by omega
    rw [syncRun] at hres
    dsimp only at hres
    obtain ⟨hcu, hcands, hupd, hscan, hnextc, hpr, hpat'⟩ :=
      syncPriceBatch_step env nowMs items prices batchSize c S hM hc hnd
        hB1 hB2 hS1 hSM hpat
        (syncPriceBatch env nowMs ⟨items, prices, some ((c : Int))⟩ batchSize) rfl
    -- recurse from the post-invocation state
    obtain ⟨hr1, hr2, hr3, hr4⟩ := ih
      ((c + min batchSize.toNat S) % items.length) (S - min batchSize.toNat S)
      (syncPriceBatch env nowMs ⟨items, prices, some ((c : Int))⟩ batchSize).prices
      (Nat.mod_lt _ (by omega)) (by omega)
      (by
        intro hj
        have hple := hmulpred hj
        by_cases hBS : batchSize.toNat ≤ S
        · have hTB : min batchSize.toNat S = batchSize.toNat := by omega
          rw [hTB]
          omega
        · exfalso
          omega)
      hpat'
      (syncRun env nowMs items batchSize j
        ((syncPriceBatch env nowMs ⟨items, prices, some ((c : Int))⟩ batchSize).prices,
         some (((syncPriceBatch env nowMs ⟨items, prices, some ((c : Int))⟩
           batchSize).nextCursor : Int))))
      (by rw [hnextc])
    have hminsum : min batchSize.toNat S + min (j * batchSize.toNat) (S - min batchSize.toNat S)
        = min ((j + 1) * batchSize.toNat) S := by
      omega
    have hposadd : ∀ x : Nat,
        (((c + min batchSize.toNat S) % items.length) + x) % items.length
        = (c + (min batchSize.toNat S + x)) % items.length := by
      intro x
      rw [Nat.mod_add_mod, Nat.add_assoc]
    subst hres
    refine ⟨?_, ?_, ?_, ?_⟩
    · dsimp only
      rw [hr1, hposadd, hminsum]
    · dsimp only
      intro i hi
      have hre := hr2 i hi
      rw [hposadd, hminsum] at hre
      rw [hre]
      exact decide_eq_decide.mpr (by omega)
    · dsimp only
      rw [List.length_cons, hr3]
    · dsimp only
      intro t ht
      by_cases htT : t < min batchSize.toNat S
      · refine ⟨_, List.mem_cons_self _ _, t, ?_, ?_⟩
        · omega
        · rw [hcu]
      · obtain ⟨o, ho, i, hio, hieq⟩ := hr4 (t - min batchSize.toNat S) (by omega)
        refine ⟨o, List.mem_cons_of_mem _ ho, i, hio, ?_⟩
        rw [hieq, hposadd]
        congr 2
        omega

/-- Reduction of one `syncPriceBatch` invocation on a non-empty item
list, with the selection scan's result abstracted. -/
lemma syncPriceBatch_reduce (env : DetailEnv) (nowMs : Int) (inp : SyncInput) (batchSize : Int)
    (hM : inp.items.length ≠ 0)
    (cands : List (Nat × PartItem)) (e : Nat)
    (hsel : selectScan inp.items inp.prices nowMs ((max 1 (min batchSize 5000)).toNat)
      inp.items.length (clampCursor inp.stateCursor inp.items.length)
      inp.items.length 0 [] = (cands, e)) :
    syncPriceBatch env nowMs inp batchSize
      = { prices := cands.foldl (writeCandidate env nowMs) inp.prices,
          nextCursor := ((match cands.getLast? with
            | some p => p.1
            | none => clampCursor inp.stateCursor inp.items.length) + 1) % inp.items.length,
          updated := cands.length,
          cursorUsed := clampCursor inp.stateCursor inp.items.length,
          scanned := e, candidates := cands } := by
  rw [syncPriceBatch]
  dsimp only
  rw [if_neg hM, hsel]

/-- The selected candidates sit at pairwise distinct positions, so with
a duplicate-free base snapshot their part numbers are pairwise
distinct. -/
lemma candidates_partNumbers_nodup (items : List PartItem)
    (prices : List (String × PriceEntry)) (nowMs : Int) (B M cursor : Nat)
    (hM : M = items.length) (hMpos : 0 < M)
    (hnd : (items.map PartItem.partNumber).Nodup)
    (cands : List (Nat × PartItem)) (e : Nat)
    (hsel : selectScan items prices nowMs B M cursor M 0 [] = (cands, e)) :
    (cands.map (fun c => c.2.partNumber)).Nodup := by
  subst hM
  obtain ⟨h0, heM, hcands, _, _⟩ :=
    selectScan_spec items prices nowMs B items.length cursor items.length 0 []
      (by omega) (by omega) (by simp) cands e hsel
  simp only [List.nil_append, Nat.sub_zero, ← List.range_eq_range'] at hcands
  rw [hcands, List.map_map]
  apply List.Nodup.map_on
  · intro x hx y hy hxy
    have hx' : x < e := List.mem_range.mp (List.mem_filter.mp hx).1
    have hy' : y < e := List.mem_range.mp (List.mem_filter.mp hy).1
    have hxM : (cursor + x) % items.length < items.length := Nat.mod_lt _ (by omega)
    have hyM : (cursor + y) % items.length < items.length := Nat.mod_lt _ (by omega)
    have heq := getD_partNumber_inj items hnd _ _ hxM hyM
      (by simpa [Function.comp, scanPick] using hxy)
    exact add_mod_inj cursor x y items.length (by omega) (by omega) heq
  · exact List.Nodup.filter _ (List.nodup_range e)

/-- C8: a per-item detail fetch failure never aborts the batch — every
selected candidate's snapshot entry is written (merged) regardless of
the outcome of any fetch, and a failed item's entry becomes
`price: absent, availability: unknown, updatedAt: now`, unconditionally
replacing any prior entry for that part number. -/
theorem syncPriceBatch_failure_isolation (env : DetailEnv) (nowMs : Int)
    (inp : SyncInput) (batchSize : Int)
    (hnd : (inp.items.map PartItem.partNumber).Nodup)
    (idx : Nat) (it : PartItem)
    (hmem : (idx, it) ∈ (syncPriceBatch env nowMs inp batchSize).candidates) :
    lookupA (syncPriceBatch env nowMs inp batchSize).prices it.partNumber
      = some { price := (fetchDetailMeta env it.url).price,
               availability := some (fetchDetailMeta env it.url).availability,
               updatedAt := some nowMs } ∧
    (env it.url = none →
      lookupA (syncPriceBatch env nowMs inp batchSize).prices it.partNumber
        = some { price := none, availability := some unknownAvailability,
                 updatedAt := some nowMs }) := by
  by_cases hM : inp.items.length = 0
  · exfalso
    rw [syncPriceBatch] at hmem
    dsimp only at hmem
    rw [if_pos hM] at hmem
    simp at hmem
  · rcases hsel : selectScan inp.items inp.prices nowMs ((max 1 (min batchSize 5000)).toNat)
      inp.items.length (clampCursor inp.stateCursor inp.items.length)
      inp.items.length 0 [] with ⟨cands, e⟩
    have hred := syncPriceBatch_reduce env nowMs inp batchSize hM cands e hsel
    rw [hred] at hmem ⊢
    dsimp only at hmem ⊢
    have hnd' := candidates_partNumbers_nodup inp.items inp.prices nowMs
      ((max 1 (min batchSize 5000)).toNat) inp.items.length
      (clampCursor inp.stateCursor inp.items.length) rfl (by omega) hnd cands e hsel
    have hwrite := lookup_foldWrite_mem_nodup env nowMs cands idx it hnd' hmem inp.prices
    refine ⟨hwrite, fun henv => ?_⟩
    rw [hwrite, fetchDetailMeta, henv]

/-- A concrete detail-fetch environment: only `"u3"` succeeds. -/
def c8Env : DetailEnv :=
  fun u => if u = "u3" then some ⟨⟨.in_stock, "In stock"⟩, some "5,00 EUR"⟩ else none

/-- A concrete three-item base snapshot. -/
def c8Items : List PartItem :=
  [⟨"A1", "", none, "u1", unknownAvailability⟩,
   ⟨"A2", "", none, "u2", unknownAvailability⟩,
   ⟨"A3", "", none, "u3", unknownAvailability⟩]

/-- The item at index 1 of `c8Items`, whose fetch fails. -/
def c8FailItem : PartItem := ⟨"A2", "", none, "u2", unknownAvailability⟩

/-- Witness for C8: a batch in which item `A2`'s detail fetch fails
while item `A3`'s succeeds; `A2` is still merged, with an
unknown-availability entry stamped at the current time. -/
theorem syncPriceBatch_failure_isolation_witness :
    ((1, c8FailItem) ∈ (syncPriceBatch c8Env 0 ⟨c8Items, [], some 1⟩ 2).candidates) ∧
    c8Env c8FailItem.url = none ∧
    lookupA (syncPriceBatch c8Env 0 ⟨c8Items, [], some 1⟩ 2).prices "A2"
      = some { price := none, availability := some unknownAvailability, updatedAt := some 0 } := by
  refine ⟨by decide, by decide, ?_⟩
  have h := syncPriceBatch_failure_isolation c8Env 0 ⟨c8Items, [], some 1⟩ 2
    (by decide) 1 c8FailItem (by decide)
  exact h.2 (by decide)

/-- An environment in which every detail fetch fails. -/
def noDetailEnv : DetailEnv := fun _ => none

/-! ### C6: cursor advancement after one rotating-batch invocation -/

/-- C6 (amended): the selected candidates are exactly the stale
offsets of the scan window — an item whose entry is fresh is skipped
(its index is never selected) but its scan offset still counts toward
the scan length; after selection the cursor is advanced to immediately
after the last selected index (mod item count), for full and partially
filled batches alike; when the batch is filled, that index is the last
scanned one, so the cursor then lands immediately after the whole scan
window; when no candidate is selected at all, the cursor advances only
to `cursor + 1` (mod item count) — not past the scanned fresh items. -/
theorem syncPriceBatch_cursor_advance (env : DetailEnv) (nowMs : Int) (inp : SyncInput)
    (batchSize : Int) (hM : 0 < inp.items.length) :
    (syncPriceBatch env nowMs inp batchSize).updated
      ≤ (syncPriceBatch env nowMs inp batchSize).scanned ∧
    (syncPriceBatch env nowMs inp batchSize).candidates
      = ((List.range (syncPriceBatch env nowMs inp batchSize).scanned).filter
          (scanStaleAt inp.items inp.prices nowMs inp.items.length
            (syncPriceBatch env nowMs inp batchSize).cursorUsed)).map
          (scanPick inp.items inp.items.length
            (syncPriceBatch env nowMs inp batchSize).cursorUsed) ∧
    (∀ j, j < (syncPriceBatch env nowMs inp batchSize).scanned →
      scanStaleAt inp.items inp.prices nowMs inp.items.length
        (syncPriceBatch env nowMs inp batchSize).cursorUsed j = false →
      ((syncPriceBatch env nowMs inp batchSize).cursorUsed + j) % inp.items.length
        ∉ (syncPriceBatch env nowMs inp batchSize).candidates.map Prod.fst) ∧
    (∀ c, (syncPriceBatch env nowMs inp batchSize).candidates.getLast? = some c →
      (syncPriceBatch env nowMs inp batchSize).nextCursor
        = (c.1 + 1) % inp.items.length) ∧
    ((syncPriceBatch env nowMs inp batchSize).candidates = [] →
      (syncPriceBatch env nowMs inp batchSize).nextCursor
        = ((syncPriceBatch env nowMs inp batchSize).cursorUsed + 1) % inp.items.length) ∧
    ((syncPriceBatch env nowMs inp batchSize).updated = (max 1 (min batchSize 5000)).toNat →
      (syncPriceBatch env nowMs inp batchSize).nextCursor
        = ((syncPriceBatch env nowMs inp batchSize).cursorUsed
            + (syncPriceBatch env nowMs inp batchSize).scanned) % inp.items.length) := by
  rcases hsel : selectScan inp.items inp.prices nowMs ((max 1 (min batchSize 5000)).toNat)
    inp.items.length (clampCursor inp.stateCursor inp.items.length)
    inp.items.length 0 [] with ⟨cands, e⟩
  have hred := syncPriceBatch_reduce env nowMs inp batchSize (by omega) cands e hsel
  rw [hred]
  dsimp only
  obtain ⟨h0, heM, hcands, hdisj, hbound⟩ :=
    selectScan_spec inp.items inp.prices nowMs ((max 1 (min batchSize 5000)).toNat)
      inp.items.length (clampCursor inp.stateCursor inp.items.length)
      inp.items.length 0 [] (by omega) (by omega) (by simp) cands e hsel
  simp only [List.nil_append, Nat.sub_zero, ← List.range_eq_range', List.length_nil,
    Nat.zero_add] at hcands hbound
  have hlen : cands.length ≤ e := by
    rw [hcands, List.length_map]
    calc ((List.range e).filter _).length ≤ (List.range e).length := List.length_filter_le _ _
    _ = e := List.length_range e
  refine ⟨hlen, hcands, ?_, ?_, ?_, ?_⟩
  · -- a fresh scan offset is never selected (but belongs to the window)
    intro j hj hfresh hmem
    rw [hcands, List.map_map] at hmem
    rcases List.mem_map.mp hmem with ⟨j', hj', hpn⟩
    have hj'f := List.mem_filter.mp hj'
    have hj'lt : j' < e := List.mem_range.mp hj'f.1
    have hidx : (clampCursor inp.stateCursor inp.items.length + j') % inp.items.length
        = (clampCursor inp.stateCursor inp.items.length + j) % inp.items.length := hpn
    have hj'j : j' = j := add_mod_inj (clampCursor inp.stateCursor inp.items.length)
      j' j inp.items.length (by omega) (by omega) hidx
    rw [hj'j, hfresh] at hj'f
    exact absurd hj'f.2 (by simp)
  · -- general rule: one past the last selected index
    intro c hlast
    rw [hlast]
  · -- no candidate selected: `lastIndex` falls back to the cursor
    intro hempty
    rw [hempty]
    rfl
  · -- batch filled: the last scanned offset was selected
    intro hfull
    have hB1 : 1 ≤ (max 1 (min batchSize 5000)).toNat := by omega
    have he1 : 1 ≤ e := by omega
    have hsplit : List.range e = List.range (e - 1) ++ [e - 1] := by
      conv_lhs => rw [show e = (e - 1) + 1 by omega]
      rw [List.range_succ]
    have hcount : ((List.range (e - 1)).filter
        (scanStaleAt inp.items inp.prices nowMs inp.items.length
          (clampCursor inp.stateCursor inp.items.length))).length
        < (max 1 (min batchSize 5000)).toNat := by
      exact hbound (e - 1) (by omega) (by omega)
    have hstaleLast : scanStaleAt inp.items inp.prices nowMs inp.items.length
        (clampCursor inp.stateCursor inp.items.length) (e - 1) = true := by
      by_contra hfalse
      rw [hcands, List.length_map, hsplit, List.filter_append] at hfull
      rw [List.filter_cons, if_neg (by simpa using hfalse)] at hfull
      simp only [List.filter_nil, List.append_nil] at hfull
      omega
    have hlast : cands.getLast? = some (scanPick inp.items inp.items.length
        (clampCursor inp.stateCursor inp.items.length) (e - 1)) := by
      rw [hcands, hsplit, List.filter_append, List.filter_cons, if_pos hstaleLast,
        List.filter_nil, List.map_append, List.map_singleton, List.getLast?_concat]
    rw [hlast]
    show ((clampCursor inp.stateCursor inp.items.length + (e - 1)) % inp.items.length + 1)
        % inp.items.length
      = (clampCursor inp.stateCursor inp.items.length + e) % inp.items.length
    rw [Nat.mod_add_mod]
    congr 1
    omega

/-- Two fresh items: with batch size 1 and cursor 0, the scan visits
both items (scan length 2, last scanned index 1) but selects none. -/
def c6Items : List PartItem :=
  [⟨"B1", "", none, "v1", unknownAvailability⟩,
   ⟨"B2", "", none, "v2", unknownAvailability⟩]

/-- Price entries making both items of `c6Items` fresh at time 0. -/
def c6Prices : List (String × PriceEntry) :=
  [("B1", ⟨none, none, some 0⟩), ("B2", ⟨none, none, some 0⟩)]

/-- Counterexample to C6 as stated: with both items fresh, the scan
length is 2 (last scanned index is 1, so "immediately after the last
scanned index (mod 2)" is 0), yet the persisted cursor becomes 1 —
the code advances past the last *selected* index (falling back to
`cursor`), not the last *scanned* index. -/
theorem c6_counterexample :
    (syncPriceBatch noDetailEnv 0 ⟨c6Items, c6Prices, some 0⟩ 1).scanned = 2 ∧
    ((syncPriceBatch noDetailEnv 0 ⟨c6Items, c6Prices, some 0⟩ 1).cursorUsed
      + (syncPriceBatch noDetailEnv 0 ⟨c6Items, c6Prices, some 0⟩ 1).scanned)
      % c6Items.length = 0 ∧
    (syncPriceBatch noDetailEnv 0 ⟨c6Items, c6Prices, some 0⟩ 1).nextCursor = 1 ∧
    (1 : Nat) ≠ 0 := by
  refine ⟨by decide, by decide, by decide, by decide⟩

/-- Price entries making only `B1` fresh at time 0. -/
def c6PricesHalf : List (String × PriceEntry) :=
  [("B1", ⟨none, none, some 0⟩)]

/-- Witness for the amended C6, on a partially filled batch: with `B1`
fresh, `B2` stale and batch size 5, only one candidate is selected
(`updated = 1 < 5`), the fresh item at scan offset 0 still counted
toward the scan (scan length 2) yet its index 0 was never selected,
and the cursor lands immediately after the last selected index 1. -/
theorem c6_amended_witness :
    0 < c6Items.length ∧
    (syncPriceBatch noDetailEnv 0 ⟨c6Items, c6PricesHalf, some 0⟩ 5).updated = 1 ∧
    (syncPriceBatch noDetailEnv 0 ⟨c6Items, c6PricesHalf, some 0⟩ 5).scanned = 2 ∧
    scanStaleAt c6Items c6PricesHalf 0 c6Items.length
      (syncPriceBatch noDetailEnv 0 ⟨c6Items, c6PricesHalf, some 0⟩ 5).cursorUsed 0 = false ∧
    ((syncPriceBatch noDetailEnv 0 ⟨c6Items, c6PricesHalf, some 0⟩ 5).cursorUsed + 0)
        % c6Items.length
      ∉ (syncPriceBatch noDetailEnv 0 ⟨c6Items, c6PricesHalf, some 0⟩ 5).candidates.map
          Prod.fst ∧
    (syncPriceBatch noDetailEnv 0 ⟨c6Items, c6PricesHalf, some 0⟩ 5).candidates.getLast?
      = some (1, c6Items.getD 1 dummyItem) ∧
    (syncPriceBatch noDetailEnv 0 ⟨c6Items, c6PricesHalf, some 0⟩ 5).nextCursor
      = ((1, c6Items.getD 1 dummyItem).1 + 1) % c6Items.length := by
  refine ⟨by decide, by decide, by decide, by decide, ?_, by decide, ?_⟩
  · exact (syncPriceBatch_cursor_advance noDetailEnv 0 ⟨c6Items, c6PricesHalf, some 0⟩ 5
      (by decide)).2.2.1 0 (by decide) (by decide)
  · exact (syncPriceBatch_cursor_advance noDetailEnv 0 ⟨c6Items, c6PricesHalf, some 0⟩ 5
      (by decide)).2.2.2.1 (1, c6Items.getD 1 dummyItem) (by decide)

/-! ### C5: rotating-batch sweep over repeated invocations -/

/-- C5 (amended): with every item's price entry initially missing or
stale, `ceil(M/B)` invocations scan every item at least once and
return the persisted cursor to its starting value. -/
theorem syncRun_rotation_sweep (env : DetailEnv) (nowMs : Int)
    (items : List PartItem) (batchSize : Int)
    (prices0 : List (String × PriceEntry)) (c0 : Nat)
    (hM : 0 < items.length)
    (hnd : (items.map PartItem.partNumber).Nodup)
    (hB1 : 1 ≤ batchSize) (hB2 : batchSize ≤ 5000)
    (_hBM : batchSize.toNat < items.length)
    (hc0 : c0 < items.length)
    (hstale : ∀ it ∈ items, entryIsStale nowMs (lookupA prices0 it.partNumber) = true) :
    (syncRun env nowMs items batchSize
      ((items.length + batchSize.toNat - 1) / batchSize.toNat)
      (prices0, some ((c0 : Int)))).1.2 = some ((c0 : Int)) ∧
    (∀ idx < items.length,
      ∃ out ∈ (syncRun env nowMs items batchSize
          ((items.length + batchSize.toNat - 1) / batchSize.toNat)
          (prices0, some ((c0 : Int)))).2,
        ∃ i, i < out.scanned ∧ (out.cursorUsed + i) % items.length = idx) := by
  have hB : 1 ≤ batchSize.toNat := by omega
  have hdm := Nat.div_add_mod (items.length + batchSize.toNat - 1) batchSize.toNat
  have hmod : (items.length + batchSize.toNat - 1) % batchSize.toNat < batchSize.toNat :=
    Nat.mod_lt _ (by omega)
  have hmulcomm : ((items.length + batchSize.toNat - 1) / batchSize.toNat) * batchSize.toNat
      = batchSize.toNat * ((items.length + batchSize.toNat - 1) / batchSize.toNat) :=
    Nat.mul_comm _ _
  have hk0 : (items.length + batchSize.toNat - 1) / batchSize.toNat = 0 →
      batchSize.toNat * ((items.length + batchSize.toNat - 1) / batchSize.toNat) = 0 := by
    intro h
    rw [h, Nat.mul_zero]
  have hkpos : 1 ≤ (items.length + batchSize.toNat - 1) / batchSize.toNat :=
    (Nat.one_le_div_iff (by omega)).mpr (by omega)
  have hpred : ((items.length + batchSize.toNat - 1) / batchSize.toNat - 1) * batchSize.toNat
      + batchSize.toNat
      = ((items.length + batchSize.toNat - 1) / batchSize.toNat) * batchSize.toNat := by
    conv_rhs => rw [show (items.length + batchSize.toNat - 1) / batchSize.toNat
      = ((items.length + batchSize.toNat - 1) / batchSize.toNat - 1) + 1 by omega]
    rw [Nat.succ_mul]
  have hkB : items.length
      ≤ ((items.length + batchSize.toNat - 1) / batchSize.toNat) * batchSize.toNat := by
    omega
  have hk1B : ((items.length + batchSize.toNat - 1) / batchSize.toNat - 1) * batchSize.toNat
      < items.length := by
    omega
  have hpat0 : ∀ i < items.length,
      scanStaleAt items prices0 nowMs items.length c0 i = decide (i < items.length) := by
    intro i hi
    rw [scanStaleAt]
    have hpos : (c0 + i) % items.length < items.length := Nat.mod_lt _ (by omega)
    have hmem : items.getD ((c0 + i) % items.length) dummyItem ∈ items := by
      rw [List.getD_eq_getElem items dummyItem hpos]
      exact List.getElem_mem _
    rw [hstale _ hmem, decide_eq_true hi]
  obtain ⟨hr1, hr2, hr3, hr4⟩ := syncRun_inv env nowMs items batchSize hM hnd hB1 hB2
    ((items.length + batchSize.toNat - 1) / batchSize.toNat) c0 items.length prices0
    hc0 (le_refl _) (fun _ => hk1B) hpat0 _ rfl
  have hminM : min (((items.length + batchSize.toNat - 1) / batchSize.toNat) * batchSize.toNat)
      items.length = items.length := by omega
  constructor
  · rw [hr1, hminM, Nat.add_mod_right, Nat.mod_eq_of_lt hc0]
  · intro idx hidx
    have ht : (idx + (items.length - c0)) % items.length < items.length :=
      Nat.mod_lt _ (by omega)
    obtain ⟨out, hout, i, hi, hieq⟩ := hr4 ((idx + (items.length - c0)) % items.length)
      (by omega)
    refine ⟨out, hout, i, hi, ?_⟩
    rw [hieq, Nat.add_comm c0, Nat.mod_add_mod, Nat.add_comm _ c0]
    have : c0 + (idx + (items.length - c0)) = idx + items.length := by omega
    rw [this, Nat.add_mod_right, Nat.mod_eq_of_lt hidx]

/-- Price entries making only `A1` of `c8Items` fresh at time 0. -/
def c5PricesFresh : List (String × PriceEntry) :=
  [("A1", ⟨none, none, some 0⟩)]

/-- Counterexample to C5 as stated: catalog of M = 3 items, batch size
B = 1 < M, no external staleness changes, but the item `A1` starts with
a fresh price entry.  After `ceil(3/1) = 3` invocations from cursor 0
the persisted cursor is 1, not its starting value 0 (mod 3). -/
theorem c5_counterexample :
    (syncRun noDetailEnv 0 c8Items 1 3 (c5PricesFresh, some ((0 : Nat) : Int))).1.2
      = some ((1 : Nat) : Int) ∧
    ¬ ((1 : Nat) : Int) = ((0 : Nat) : Int) := by
  refine ⟨by decide, by decide⟩

/-- Witness for the amended C5: 3 items, all entries initially missing,
batch size 2, starting cursor 1; after `ceil(3/2) = 2` invocations the
cursor returns to 1 and every index was scanned. -/
theorem syncRun_rotation_sweep_witness :
    (syncRun noDetailEnv 0 c8Items 2 ((c8Items.length + (2 : Int).toNat - 1) / (2 : Int).toNat)
      ([], some ((1 : Nat) : Int))).1.2 = some ((1 : Nat) : Int) ∧
    (∀ idx < c8Items.length,
      ∃ out ∈ (syncRun noDetailEnv 0 c8Items 2
          ((c8Items.length + (2 : Int).toNat - 1) / (2 : Int).toNat)
          ([], some ((1 : Nat) : Int))).2,
        ∃ i, i < out.scanned ∧ (out.cursorUsed + i) % c8Items.length = idx) :=
  syncRun_rotation_sweep noDetailEnv 0 c8Items 2 [] 1 (by decide) (by decide)
    (by decide) (by decide) (by decide) (by decide) (by decide)

/-! ## Chunked Index Builder (src part_005)

The builder streams newline-delimited records into bounded chunks and
two prefix indexes.  A `RawRecord` stands for one non-blank,
JSON-parseable input line: `line` is the verbatim serialized text
written to the chunk file, `partNumber` and `name` are the parsed
fields the builder reads. -/

structure RawRecord where
  line : String
  partNumber : String
  name : String
deriving DecidableEq, Repr

/-- An output chunk.  The chunk file's name is `parts-<id zero-padded
to 4>.ndjson`, i.e. determined by `id`, so it is not modelled
separately; the file's content is `records.map line`, one per line. -/
structure Chunk where
  id : Nat
  records : List RawRecord
  firstPartNumber : String
  lastPartNumber : String
deriving DecidableEq, Repr

/-- `getPartPrefix4(partNumber)`: `null` when the normalized part
number is shorter than 4, else its first 4 characters. -/
def getPartPrefix4 (partNumber : String) : Option String :=
  let normalized := normalizePartNumber partNumber
  if normalized.data.length < 4 then none
  else some ((normalized.data.take 4).asString)

/-- One character of JavaScript `toLowerCase`: ASCII letters plus the
German umlauts that `tokenizeName`'s character class can keep
(196/214/220 are `Ä`/`Ö`/`Ü`, mapped to 228/246/252). -/
def lowChar (c : Char) : Char :=
  if 65 ≤ c.toNat ∧ c.toNat ≤ 90 then Char.ofNat (c.toNat + 32)
  else if c.toNat = 196 then Char.ofNat 228
  else if c.toNat = 214 then Char.ofNat 246
  else if c.toNat = 220 then Char.ofNat 252
  else c

/-- The character class `[a-z0-9äöüß]` of `tokenizeName`'s splitting
regex (applied after lower-casing; 228/246/252/223 are `ä ö ü ß`). -/
def isTokenChar (c : Char) : Bool :=
  (97 ≤ c.toNat && c.toNat ≤ 122) || (48 ≤ c.toNat && c.toNat ≤ 57) ||
  (c.toNat = 228) || (c.toNat = 246) || (c.toNat = 252) || (c.toNat = 223)

/-- Maximal runs of token characters (the non-empty pieces of
`split(/[^a-z0-9äöüß]+/i)`; empty pieces are dropped by the length
filter anyway). -/
def tokenRunsAux : List Char → List Char → List (List Char)
  | [], acc => if acc.isEmpty then [] else [acc.reverse]
  | c :: rest, acc =>
    if isTokenChar c then tokenRunsAux rest (c :: acc)
    else if acc.isEmpty then tokenRunsAux rest []
    else acc.reverse :: tokenRunsAux rest []

/-- `tokenizeName(name)`: lower-case, split on non-token characters,
keep tokens of length at least 3 (`trim` is a no-op on token runs). -/
def tokenizeName (name : String) : List String :=
  ((tokenRunsAux (name.data.map lowChar) []).map List.asString).filter
    (fun t => 3 ≤ t.data.length)

/-- The token-prefix collection loop: up to 8 distinct 3-character
token prefixes, insertion order, breaking once the set reaches 8. -/
def collectTokenPrefixes : List String → List String → List String
  | [], acc => acc
  | t :: rest, acc =>
    let p := (t.data.take 3).asString
    let acc' := if p ∈ acc then acc else acc ++ [p]
    if 8 ≤ acc'.length then acc' else collectTokenPrefixes rest acc'

/-- `addToIndex(index, key, chunkId)`: the per-key value is a `Set`
kept as an insertion-ordered duplicate-free list. -/
def addToIndex (idx : List (String × List Nat)) (key : String) (chunkId : Nat) :
    List (String × List Nat) :=
  match lookupA idx key with
  | none => idx ++ [(key, [chunkId])]
  | some ids => setA idx key (if chunkId ∈ ids then ids else ids ++ [chunkId])

/-- Code-point comparison of strings: the effect of JavaScript's
string comparison on the `[A-Z0-9]`/lower-case-token keys that occur
here (and of `localeCompare` on normalized part numbers). -/
def charListLe : List Char → List Char → Bool
  | [], _ => true
  | _ :: _, [] => false
  | a :: as, b :: bs =>
    if a.toNat < b.toNat then true
    else if b.toNat < a.toNat then false
    else charListLe as bs

def strLe (a b : String) : Bool := charListLe a.data b.data

/-- `strLe` as a relation, for sorting. -/
def strLeP (a b : String) : Prop := strLe a b = true

instance : DecidableRel strLeP := fun _ _ => instDecidableEqBool _ _

/-- `sortedIndexObject(index)`: keys sorted, each chunk-id set
converted to an ascending list. -/
def sortedIndexObject (idx : List (String × List Nat)) : List (String × List Nat) :=
  let keys := List.insertionSort strLeP (idx.map Prod.fst)
  keys.map (fun k => (k, List.insertionSort (· ≤ ·) ((lookupA idx k).getD [])))

/-- The builder's loop state (`chunks`, the open chunk, `chunkId`,
`totalParts`, and the two index maps).  `nextChunkId` tracks the
source's `chunkId + 1` (initially `chunkId = -1`). -/
structure BuildState where
  closed : List Chunk
  current : Option Chunk
  nextChunkId : Nat
  totalParts : Nat
  partIdx : List (String × List Nat)
  nameIdx : List (String × List Nat)
deriving Repr

def initialBuildState : BuildState :=
  { closed := [], current := none, nextChunkId := 0, totalParts := 0,
    partIdx := [], nameIdx := [] }

/-- `closeChunk()`: flush and record the open chunk's metadata; an
open but empty chunk (impossible in practice) records nothing. -/
def closeChunk (st : BuildState) : BuildState :=
  match st.current with
  | none => st
  | some cur =>
    if cur.records.length = 0 then { st with current := none }
    else { st with closed := st.closed ++ [cur], current := none }

/-- The body of the builder's `for await (const line of rl)` loop for
one (non-blank, parsed) record: skip on empty normalized part number,
open a chunk if none is open, append the line, update aggregates and
both indexes, close the chunk when it reaches `chunkSize`. -/
def stepRecord (chunkSize : Nat) (st : BuildState) (r : RawRecord) : BuildState :=
  let pn := normalizePartNumber r.partNumber
  if pn = "" then st
  else
    let opened : Chunk × Nat :=
      match st.current with
      | some cur => (cur, st.nextChunkId)
      | none => ({ id := st.nextChunkId, records := [], firstPartNumber := "",
                   lastPartNumber := "" }, st.nextChunkId + 1)
    let cur := opened.1
    let cur' : Chunk :=
      { cur with
        records := cur.records ++ [r]
        lastPartNumber := pn
        firstPartNumber := if cur.firstPartNumber = "" then pn else cur.firstPartNumber }
    let partIdx' := match getPartPrefix4 pn with
      | some p4 => addToIndex st.partIdx p4 cur.id
      | none => st.partIdx
    let nameIdx' := (collectTokenPrefixes (tokenizeName r.name) []).foldl
      (fun idx p => addToIndex idx p cur.id) st.nameIdx
    let st' : BuildState :=
      { closed := st.closed, current := some cur', nextChunkId := opened.2,
        totalParts := st.totalParts + 1, partIdx := partIdx', nameIdx := nameIdx' }
    if chunkSize ≤ cur'.records.length then closeChunk st' else st'

/-- What `run()` leaves on disk: the chunk files, the manifest's
`chunkCount`/`totalParts`/`chunks`, and the two sorted index maps. -/
structure BuildResult where
  chunks : List Chunk
  chunkCount : Nat
  totalParts : Nat
  byPartPrefix4 : List (String × List Nat)
  byNamePrefix3 : List (String × List Nat)
deriving Repr

/-- `run()` on an already-read list of non-blank parsed lines. -/
def runChunkBuilder (chunkSize : Nat) (records : List RawRecord) : BuildResult :=
  let st := closeChunk (records.foldl (stepRecord chunkSize) initialBuildState)
  { chunks := st.closed, chunkCount := st.closed.length, totalParts := st.totalParts,
    byPartPrefix4 := sortedIndexObject st.partIdx,
    byNamePrefix3 := sortedIndexObject st.nameIdx }

/-! ### Builder invariants -/

/-- The records of the open chunk, if any. -/
def currentRecords (st : BuildState) : List RawRecord :=
  match st.current with
  | some c => c.records
  | none => []

/-- All chunks written so far, closed ones first, then the open one. -/
def chunksAll (st : BuildState) : List Chunk :=
  st.closed ++ (match st.current with | some c => [c] | none => [])

/-- The chunk-id list registered under key `p` (empty when absent). -/
def idsOf (idx : List (String × List Nat)) (p : String) : List Nat :=
  (lookupA idx p).getD []

lemma lookupA_append {α : Type} (l1 l2 : List (String × α)) (k : String) :
    lookupA (l1 ++ l2) k
      = match lookupA l1 k with
        | some v => some v
        | none => lookupA l2 k := by
  induction l1 with
  | nil => simp [lookupA]
  | cons p rest ih =>
    by_cases h : p.1 = k
    · simp [lookupA, h]
    · simpa [lookupA, h] using ih

lemma lookupA_eq_none_iff {α : Type} (l : List (String × α)) (k : String) :
    lookupA l k = none ↔ k ∉ l.map Prod.fst := by
  induction l with
  | nil => simp [lookupA]
  | cons p rest ih =>
    obtain ⟨a, b⟩ := p
    by_cases h : a = k
    · simp [lookupA, h]
    · rw [lookupA, if_neg h, ih]
      simp only [List.map_cons, List.mem_cons]
      constructor
      · rintro hn (he | hm)
        · exact h he.symm
        · exact hn hm
      · intro hn hm
        exact hn (Or.inr hm)

lemma mem_idsOf_addToIndex (idx : List (String × List Nat)) (key : String) (id0 : Nat)
    (p : String) (i : Nat) :
    i ∈ idsOf (addToIndex idx key id0) p ↔ (p = key ∧ i = id0) ∨ i ∈ idsOf idx p := by
  rw [addToIndex]
  cases hl : lookupA idx key with
  | none =>
    rw [idsOf, lookupA_append]
    cases hp : lookupA idx p with
    | some v =>
      have hkp : ¬ (p = key) := by
        intro he
        rw [he, hl] at hp
        exact Option.noConfusion hp
      simp [idsOf, hp, hkp]
    | none =>
      by_cases hkp : key = p
      · subst hkp
        simp [lookupA, idsOf, hp]
      · have hnone : lookupA [(key, [id0])] p = none := by
          simp [lookupA, hkp]
        rw [hnone]
        simp only [Option.getD_none, List.not_mem_nil, idsOf, hp, iff_false, false_iff]
        rintro (⟨he, _⟩ | hm)
        · exact hkp he.symm
        · exact hm
  | some ids =>
    by_cases hkp : p = key
    · subst hkp
      rw [idsOf, lookupA_setA_self, idsOf, hl]
      by_cases hid : id0 ∈ ids
      · simp only [if_pos hid, Option.getD_some]
        constructor
        · intro h
          exact Or.inr h
        · rintro (⟨_, rfl⟩ | h)
          · exact hid
          · exact h
      · simp only [if_neg hid, Option.getD_some, List.mem_append, List.mem_singleton]
        tauto
    · rw [idsOf, lookupA_setA_other _ _ _ _ (fun h => hkp h.symm)]
      simp [idsOf, hkp]

lemma mem_idsOf_sortedIndexObject (idx : List (String × List Nat)) (p : String) (i : Nat) :
    i ∈ idsOf (sortedIndexObject idx) p ↔ i ∈ idsOf idx p := by
  rw [sortedIndexObject]
  have hlk : ∀ (keys : List String) (f : String → List Nat),
      lookupA (keys.map (fun k => (k, f k))) p
        = if p ∈ keys then some (f p) else none := by
    intro keys f
    induction keys with
    | nil => simp [lookupA]
    | cons k ks ih =>
      by_cases h : k = p
      · subst h
        simp [lookupA, ih]
      · rw [List.map_cons, lookupA, if_neg h, ih]
        have hiff : (p ∈ k :: ks) ↔ p ∈ ks := by
          rw [List.mem_cons]
          constructor
          · rintro (he | hm)
            · exact absurd he.symm h
            · exact hm
          · exact Or.inr
        rw [if_congr hiff rfl rfl]
  rw [idsOf, hlk]
  have hperm := List.perm_insertionSort strLeP (idx.map Prod.fst)
  by_cases hmem : p ∈ idx.map Prod.fst
  · rw [if_pos (hperm.mem_iff.mpr hmem), Option.getD_some]
    exact (List.perm_insertionSort _ _).mem_iff
  · rw [if_neg (fun h => hmem (hperm.mem_iff.mp h))]
    have : lookupA idx p = none := (lookupA_eq_none_iff idx p).mpr hmem
    simp [idsOf, this]

/-- `getPartPrefix4` already normalizes, so pre-normalizing is a no-op. -/
lemma getPartPrefix4_normalize (x : String) :
    getPartPrefix4 (normalizePartNumber x) = getPartPrefix4 x := by
  rw [getPartPrefix4, getPartPrefix4, normalizePartNumber_idem]

/-- The part-prefix index invariant: a chunk id `i` is registered under
key `p` iff some already-written record of the chunk with id `i` has
4-character part-number prefix `p`. -/
def IndexInv (st : BuildState) : Prop :=
  ∀ p i, i ∈ idsOf st.partIdx p ↔
    ∃ ch ∈ chunksAll st, ch.id = i ∧ ∃ r ∈ ch.records, getPartPrefix4 r.partNumber = some p

/-- The builder's loop invariant after consuming the valid records
`done`. -/
def BuildInv (S : Nat) (done : List RawRecord) (st : BuildState) : Prop :=
  (st.closed.map Chunk.records).flatten ++ currentRecords st = done ∧
  (∀ ch ∈ st.closed, ch.records.length = S) ∧
  (∀ c, st.current = some c → 1 ≤ c.records.length ∧ c.records.length < S) ∧
  st.closed.map Chunk.id = List.range st.closed.length ∧
  (∀ c, st.current = some c → c.id = st.closed.length) ∧
  st.nextChunkId = st.closed.length + (match st.current with | some _ => 1 | none => 0) ∧
  st.totalParts = done.length ∧
  IndexInv st

lemma buildInv_initial (S : Nat) : BuildInv S [] initialBuildState := by
  refine ⟨rfl, ?_, ?_, rfl, ?_, rfl, rfl, ?_⟩
  · intro ch hch
    simp [initialBuildState] at hch
  · intro c hc
    simp [initialBuildState] at hc
  · intro c hc
    simp [initialBuildState] at hc
  · intro p i
    simp [initialBuildState, idsOf, lookupA, chunksAll]

lemma stepRecord_inv (S : Nat) (hS : 1 ≤ S) (st : BuildState) (done : List RawRecord)
    (r : RawRecord) (hInv : BuildInv S done st)
    (hval : ¬ (normalizePartNumber r.partNumber = "")) :
    BuildInv S (done ++ [r]) (stepRecord S st r) := by
  obtain ⟨hjoin, hclosedS, hcur, hids, hcurid, hnext, htot, hidx⟩ := hInv
  cases hc : st.current with
  | some cur =>
    obtain ⟨hcur1, hcur2⟩ := hcur cur hc
    have hcid := hcurid cur hc
    have hnext' : st.nextChunkId = st.closed.length + 1 := by
      rw [hnext, hc]
    -- the updated open chunk
    have hstep : stepRecord S st r
        = (let cur' : Chunk :=
            { cur with
              records := cur.records ++ [r]
              lastPartNumber := normalizePartNumber r.partNumber
              firstPartNumber := if cur.firstPartNumber = ""
                then normalizePartNumber r.partNumber else cur.firstPartNumber }
           let partIdx' := match getPartPrefix4 (normalizePartNumber r.partNumber) with
             | some p4 => addToIndex st.partIdx p4 cur.id
             | none => st.partIdx
           let nameIdx' := (collectTokenPrefixes (tokenizeName r.name) []).foldl
             (fun idx p => addToIndex idx p cur.id) st.nameIdx
           let st' : BuildState :=
             { closed := st.closed, current := some cur', nextChunkId := st.nextChunkId,
               totalParts := st.totalParts + 1, partIdx := partIdx', nameIdx := nameIdx' }
           if S ≤ cur'.records.length then closeChunk st' else st') := by
      rw [stepRecord, if_neg hval, hc]
    rw [hstep]
    dsimp only
    set pn := normalizePartNumber r.partNumber with hpn
    set cur' : Chunk :=
      { cur with
        records := cur.records ++ [r]
        lastPartNumber := pn
        firstPartNumber := if cur.firstPartNumber = "" then pn else cur.firstPartNumber }
      with hcur'
    have hcur'id : cur'.id = cur.id := rfl
    have hcur'len : cur'.records.length = cur.records.length + 1 := by
      rw [hcur']
      exact List.length_append _ _
    have hIdxNew : ∀ p i,
        i ∈ idsOf (match getPartPrefix4 pn with
          | some p4 => addToIndex st.partIdx p4 cur.id
          | none => st.partIdx) p ↔
        ∃ ch ∈ st.closed ++ [cur'], ch.id = i ∧
          ∃ r' ∈ ch.records, getPartPrefix4 r'.partNumber = some p := by
      intro p i
      have hrhs : (∃ ch ∈ st.closed ++ [cur'], ch.id = i ∧
            ∃ r' ∈ ch.records, getPartPrefix4 r'.partNumber = some p)
          ↔ ((∃ ch ∈ chunksAll st, ch.id = i ∧
              ∃ r' ∈ ch.records, getPartPrefix4 r'.partNumber = some p)
             ∨ (cur.id = i ∧ getPartPrefix4 r.partNumber = some p)) := by
        rw [chunksAll, hc]
        constructor
        · rintro ⟨ch, hch, hchid, r', hr', hp'⟩
          rcases List.mem_append.mp hch with hcl | hone
          · exact Or.inl ⟨ch, List.mem_append.mpr (Or.inl hcl), hchid, r', hr', hp'⟩
          · have hch' : ch = cur' := by simpa using hone
            subst hch'
            have hr2 : r' ∈ cur.records ∨ r' = r := by simpa [hcur'] using hr'
            rcases hr2 with hrold | hrnew
            · exact Or.inl ⟨cur, List.mem_append.mpr (Or.inr (by simp)), hcur'id ▸ hchid,
                r', hrold, hp'⟩
            · subst hrnew
              exact Or.inr ⟨hcur'id ▸ hchid, hp'⟩
        · rintro (⟨ch, hch, hchid, r', hr', hp'⟩ | ⟨hid, hp'⟩)
          · rcases List.mem_append.mp hch with hcl | hone
            · exact ⟨ch, List.mem_append.mpr (Or.inl hcl), hchid, r', hr', hp'⟩
            · have hch' : ch = cur := by simpa using hone
              subst hch'
              exact ⟨cur', List.mem_append.mpr (Or.inr (by simp)), hcur'id ▸ hchid,
                r', by simp [hcur', List.mem_append.mpr (Or.inl hr')], hp'⟩
          · exact ⟨cur', List.mem_append.mpr (Or.inr (by simp)), hcur'id ▸ hid,
              r, by simp [hcur'], hp'⟩
      rw [hrhs]
      have hpre : getPartPrefix4 pn = getPartPrefix4 r.partNumber := by
        rw [hpn, getPartPrefix4_normalize]
      cases hp4 : getPartPrefix4 r.partNumber with
      | none =>
        rw [hpre, hp4]
        rw [hidx p i]
        constructor
        · exact Or.inl
        · rintro (h | ⟨_, hcontra⟩)
          · exact h
          · exact Option.noConfusion hcontra
      | some p4 =>
        rw [hpre, hp4, mem_idsOf_addToIndex, hidx p i]
        constructor
        · rintro (⟨rfl, rfl⟩ | h)
          · exact Or.inr ⟨rfl, rfl⟩
          · exact Or.inl h
        · rintro (h | ⟨hid, hp'⟩)
          · exact Or.inr h
          · have hpp : p4 = p := Option.some.inj hp'
            exact Or.inl ⟨hpp.symm, hid.symm⟩
    by_cases hfull : S ≤ cur'.records.length
    · rw [if_pos hfull]
      have hlenS : cur'.records.length = S :=
        Nat.le_antisymm (by rw [hcur'len]; omega) hfull
      rw [closeChunk]
      dsimp only
      rw [if_neg (show ¬ (cur'.records.length = 0) by omega)]
      refine ⟨?_, ?_, ?_, ?_, ?_, ?_, ?_, ?_⟩
      · show ((st.closed ++ [cur']).map Chunk.records).flatten ++ [] = done ++ [r]
        rw [List.map_append, List.flatten_append, List.append_nil]
        simp only [List.map_singleton, List.flatten_cons, List.flatten_nil, List.append_nil]
        rw [← hjoin, currentRecords, hc]
        simp [hcur', List.append_assoc]
      · intro ch hch
        rcases List.mem_append.mp hch with hcl | hone
        · exact hclosedS ch hcl
        · have : ch = cur' := by simpa using hone
          rw [this, hlenS]
      · intro c hcc
        exact Option.noConfusion hcc
      · rw [List.map_append, List.map_singleton, List.length_append, List.length_singleton,
          hids, hcur'id, hcid, List.range_succ]
      · intro c hcc
        exact Option.noConfusion hcc
      · show st.nextChunkId = (st.closed ++ [cur']).length + 0
        rw [hnext', List.length_append, List.length_singleton, Nat.add_zero]
      · show st.totalParts + 1 = (done ++ [r]).length
        rw [htot, List.length_append, List.length_singleton]
      · intro p i
        show i ∈ idsOf (match getPartPrefix4 pn with
          | some p4 => addToIndex st.partIdx p4 cur.id
          | none => st.partIdx) p ↔ _
        rw [hIdxNew p i]
        rw [chunksAll]
        simp only [List.append_nil]
    · rw [if_neg hfull]
      refine ⟨?_, hclosedS, ?_, hids, ?_, ?_, ?_, ?_⟩
      · show (st.closed.map Chunk.records).flatten ++ cur'.records = done ++ [r]
        rw [← hjoin, currentRecords, hc]
        simp [hcur', List.append_assoc]
      · intro c hcc
        have hccs : cur' = c := by simpa using hcc
        subst hccs
        constructor
        · rw [hcur'len]; omega
        · omega
      · intro c hcc
        have hccs : cur' = c := by simpa using hcc
        subst hccs
        rw [hcur'id, hcid]
      · show st.nextChunkId = st.closed.length + 1
        exact hnext'
      · show st.totalParts + 1 = (done ++ [r]).length
        rw [htot, List.length_append, List.length_singleton]
      · intro p i
        show i ∈ idsOf (match getPartPrefix4 pn with
          | some p4 => addToIndex st.partIdx p4 cur.id
          | none => st.partIdx) p ↔ _
        rw [hIdxNew p i]
        rw [chunksAll]
  | none =>
    have hnextz : st.nextChunkId = st.closed.length := by
      rw [hnext, hc]
      rfl
    have hjoin' : (st.closed.map Chunk.records).flatten = done := by
      rw [← hjoin, currentRecords, hc, List.append_nil]
    have hstep : stepRecord S st r
        = (let cur' : Chunk :=
            { id := st.closed.length, records := [r],
              firstPartNumber := normalizePartNumber r.partNumber,
              lastPartNumber := normalizePartNumber r.partNumber }
           let partIdx' := match getPartPrefix4 (normalizePartNumber r.partNumber) with
             | some p4 => addToIndex st.partIdx p4 st.closed.length
             | none => st.partIdx
           let nameIdx' := (collectTokenPrefixes (tokenizeName r.name) []).foldl
             (fun idx p => addToIndex idx p st.closed.length) st.nameIdx
           let st' : BuildState :=
             { closed := st.closed, current := some cur', nextChunkId := st.closed.length + 1,
               totalParts := st.totalParts + 1, partIdx := partIdx', nameIdx := nameIdx' }
           if S ≤ 1 then closeChunk st' else st') := by
      rw [stepRecord, if_neg hval, hc, hnextz]
      simp
    rw [hstep]
    dsimp only
    set pn := normalizePartNumber r.partNumber with hpn
    set cur' : Chunk :=
      { id := st.closed.length, records := [r], firstPartNumber := pn,
        lastPartNumber := pn } with hcur'
    have hIdxNew : ∀ p i,
        i ∈ idsOf (match getPartPrefix4 pn with
          | some p4 => addToIndex st.partIdx p4 st.closed.length
          | none => st.partIdx) p ↔
        ∃ ch ∈ st.closed ++ [cur'], ch.id = i ∧
          ∃ r' ∈ ch.records, getPartPrefix4 r'.partNumber = some p := by
      intro p i
      have hrhs : (∃ ch ∈ st.closed ++ [cur'], ch.id = i ∧
            ∃ r' ∈ ch.records, getPartPrefix4 r'.partNumber = some p)
          ↔ ((∃ ch ∈ chunksAll st, ch.id = i ∧
              ∃ r' ∈ ch.records, getPartPrefix4 r'.partNumber = some p)
             ∨ (st.closed.length = i ∧ getPartPrefix4 r.partNumber = some p)) := by
        rw [chunksAll, hc, List.append_nil]
        constructor
        · rintro ⟨ch, hch, hchid, r', hr', hp'⟩
          rcases List.mem_append.mp hch with hcl | hone
          · exact Or.inl ⟨ch, hcl, hchid, r', hr', hp'⟩
          · have hch' : ch = cur' := by simpa using hone
            subst hch'
            have hr2 : r' = r := by simpa [hcur'] using hr'
            subst hr2
            exact Or.inr ⟨hchid, hp'⟩
        · rintro (⟨ch, hch, hchid, r', hr', hp'⟩ | ⟨hid, hp'⟩)
          · exact ⟨ch, List.mem_append.mpr (Or.inl hch), hchid, r', hr', hp'⟩
          · exact ⟨cur', List.mem_append.mpr (Or.inr (by simp)), hid, r, by simp [hcur'], hp'⟩
      rw [hrhs]
      have hpre : getPartPrefix4 pn = getPartPrefix4 r.partNumber := by
        rw [hpn, getPartPrefix4_normalize]
      cases hp4 : getPartPrefix4 r.partNumber with
      | none =>
        rw [hpre, hp4]
        rw [hidx p i]
        constructor
        · exact Or.inl
        · rintro (h | ⟨_, hcontra⟩)
          · exact h
          · exact Option.noConfusion hcontra
      | some p4 =>
        rw [hpre, hp4, mem_idsOf_addToIndex, hidx p i]
        constructor
        · rintro (⟨rfl, rfl⟩ | h)
          · exact Or.inr ⟨rfl, rfl⟩
          · exact Or.inl h
        · rintro (h | ⟨hid, hp'⟩)
          · exact Or.inr h
          · have hpp : p4 = p := Option.some.inj hp'
            exact Or.inl ⟨hpp.symm, hid.symm⟩
    by_cases hfull : S ≤ 1
    · rw [if_pos (by simpa [hcur'] using hfull)]
      rw [closeChunk]
      dsimp only
      rw [if_neg (show ¬ (cur'.records.length = 0) by simp [hcur'])]
      refine ⟨?_, ?_, ?_, ?_, ?_, ?_, ?_, ?_⟩
      · show ((st.closed ++ [cur']).map Chunk.records).flatten ++ [] = done ++ [r]
        rw [List.map_append, List.flatten_append, List.append_nil]
        simp only [List.map_singleton, List.flatten_cons, List.flatten_nil, List.append_nil]
        rw [hjoin']
      · intro ch hch
        rcases List.mem_append.mp hch with hcl | hone
        · exact hclosedS ch hcl
        · have : ch = cur' := by simpa using hone
          rw [this]
          show cur'.records.length = S
          have : cur'.records.length = 1 := by simp [hcur']
          omega
      · intro c hcc
        exact Option.noConfusion hcc
      · rw [List.map_append, List.map_singleton, List.length_append, List.length_singleton,
          hids]
        show List.range st.closed.length ++ [cur'.id] = List.range (st.closed.length + 1)
        rw [show cur'.id = st.closed.length from rfl, List.range_succ]
      · intro c hcc
        exact Option.noConfusion hcc
      · show st.closed.length + 1 = (st.closed ++ [cur']).length + 0
        rw [List.length_append, List.length_singleton, Nat.add_zero]
      · show st.totalParts + 1 = (done ++ [r]).length
        rw [htot, List.length_append, List.length_singleton]
      · intro p i
        show i ∈ idsOf (match getPartPrefix4 pn with
          | some p4 => addToIndex st.partIdx p4 st.closed.length
          | none => st.partIdx) p ↔ _
        rw [hIdxNew p i]
        rw [chunksAll]
        simp only [List.append_nil]
    · rw [if_neg (by simpa [hcur'] using hfull)]
      refine ⟨?_, hclosedS, ?_, hids, ?_, ?_, ?_, ?_⟩
      · show (st.closed.map Chunk.records).flatten ++ cur'.records = done ++ [r]
        rw [hjoin']
      · intro c hcc
        have hccs : cur' = c := by simpa using hcc
        subst hccs
        have : cur'.records.length = 1 := by simp [hcur']
        omega
      · intro c hcc
        have hccs : cur' = c := by simpa using hcc
        subst hccs
        rfl
      · show st.closed.length + 1 = st.closed.length + 1
        rfl
      · show st.totalParts + 1 = (done ++ [r]).length
        rw [htot, List.length_append, List.length_singleton]
      · intro p i
        show i ∈ idsOf (match getPartPrefix4 pn with
          | some p4 => addToIndex st.partIdx p4 st.closed.length
          | none => st.partIdx) p ↔ _
        rw [hIdxNew p i]
        rw [chunksAll]

/-- Folding the loop body over a list of valid records preserves the
builder invariant. -/
lemma build_fold_inv (S : Nat) (hS : 1 ≤ S) :
    ∀ (recs done : List RawRecord) (st : BuildState),
      BuildInv S done st →
      (∀ r ∈ recs, ¬ (normalizePartNumber r.partNumber = "")) →
      BuildInv S (done ++ recs) (recs.foldl (stepRecord S) st) := by
  intro recs
  induction recs with
  | nil =>
    intro done st hInv _
    simpa using hInv
  | cons r rs ih =>
    intro done st hInv hval
    have hstep := stepRecord_inv S hS st done r hInv (hval r (by simp))
    have := ih (done ++ [r]) (stepRecord S st r) hstep
      (fun r' hr' => hval r' (by simp [hr']))
    simpa [List.append_assoc] using this

lemma flatten_length_uniform (S : Nat) :
    ∀ (l : List Chunk), (∀ ch ∈ l, ch.records.length = S) →
      ((l.map Chunk.records).flatten).length = S * l.length := by
  intro l
  induction l with
  | nil => intro; simp
  | cons c cs ih =>
    intro h
    rw [List.map_cons, List.flatten_cons, List.length_append, ih (fun ch hch => h ch (by simp [hch])),
      h c (by simp), List.length_cons]
    ring

/-- The final `closeChunk` flushes the open chunk, after which the
manifest's chunk list satisfies C1's partition properties. -/
lemma closeChunk_final (S : Nat) (hS : 1 ≤ S) (done : List RawRecord) (st : BuildState)
    (hInv : BuildInv S done st) :
    (closeChunk st).closed = chunksAll st ∧
    (closeChunk st).partIdx = st.partIdx ∧
    (closeChunk st).totalParts = done.length ∧
    ((chunksAll st).map Chunk.records).flatten = done ∧
    (chunksAll st).map Chunk.id = List.range (chunksAll st).length ∧
    (chunksAll st).length = (done.length + S - 1) / S := by
  obtain ⟨hjoin, hclosedS, hcur, hids, hcurid, _hnext, _htot, _hidx⟩ := hInv
  have hflat := flatten_length_uniform S st.closed hclosedS
  cases hc : st.current with
  | none =>
    have hclose : closeChunk st = st := by
      rw [closeChunk, hc]
    have hall : chunksAll st = st.closed := by
      rw [chunksAll, hc, List.append_nil]
    have hdone : done = (st.closed.map Chunk.records).flatten := by
      rw [← hjoin, currentRecords, hc, List.append_nil]
    refine ⟨by rw [hclose, hall], by rw [hclose], by rw [hclose, _htot], ?_, ?_, ?_⟩
    · rw [hall, hdone]
    · rw [hall, hids]
    · rw [hall, hdone, hflat]
      have harith : S * st.closed.length + S - 1 = (S - 1) + S * st.closed.length := by
        omega
      rw [harith, Nat.add_mul_div_left _ _ (by omega), Nat.div_eq_of_lt (by omega)]
      omega
  | some cur =>
    obtain ⟨hcur1, hcur2⟩ := hcur cur hc
    have hclose : closeChunk st
        = { st with closed := st.closed ++ [cur], current := none } := by
      rw [closeChunk, hc]
      dsimp only
      rw [if_neg (by omega)]
    have hall : chunksAll st = st.closed ++ [cur] := by
      rw [chunksAll, hc]
    have hdone : done = (st.closed.map Chunk.records).flatten ++ cur.records := by
      rw [← hjoin, currentRecords, hc]
    refine ⟨by rw [hclose, hall], by rw [hclose], by rw [hclose, _htot], ?_, ?_, ?_⟩
    · rw [hall, hdone, List.map_append, List.flatten_append]
      simp
    · rw [hall, List.map_append, List.map_singleton, List.length_append,
        List.length_singleton, hids, hcurid cur hc, List.range_succ]
    · rw [hall, hdone, List.length_append, List.length_append, hflat,
        List.length_singleton]
      have harith : S * st.closed.length + cur.records.length + S - 1
          = (cur.records.length + S - 1) + S * st.closed.length := by
        omega
      rw [harith, Nat.add_mul_div_left _ _ (by omega)]
      have hone : (cur.records.length + S - 1) / S = 1 := by
        apply Nat.div_eq_of_lt_le <;> omega
      omega

/-- C1: for a stream of `N` valid records and chunk size `S ≥ 1`, the
builder emits exactly `⌈N/S⌉` chunks with contiguous ids from 0, every
record lands in exactly one chunk, and concatenating the chunks in id
order reproduces the input stream record-for-record (hence, projecting
to the verbatim serialized lines, line-for-line). -/
theorem chunkBuilder_partition (S : Nat) (hS : 1 ≤ S) (records : List RawRecord)
    (hvalid : ∀ r ∈ records, ¬ (normalizePartNumber r.partNumber = "")) :
    (runChunkBuilder S records).chunkCount = (records.length + S - 1) / S ∧
    (runChunkBuilder S records).chunks.length = (records.length + S - 1) / S ∧
    ((runChunkBuilder S records).chunks.map Chunk.records).flatten = records ∧
    (runChunkBuilder S records).chunks.map Chunk.id
      = List.range (runChunkBuilder S records).chunks.length ∧
    ((runChunkBuilder S records).chunks.map (fun ch => ch.records.map RawRecord.line)).flatten
      = records.map RawRecord.line := by
  have hInv := build_fold_inv S hS records [] initialBuildState (buildInv_initial S) hvalid
  rw [List.nil_append] at hInv
  obtain ⟨ha, hb, hc, hd, he, hf⟩ :=
    closeChunk_final S hS records (records.foldl (stepRecord S) initialBuildState) hInv
  have hchunks : (runChunkBuilder S records).chunks
      = chunksAll (records.foldl (stepRecord S) initialBuildState) := by
    rw [runChunkBuilder]
    exact ha
  have hcount : (runChunkBuilder S records).chunkCount
      = (chunksAll (records.foldl (stepRecord S) initialBuildState)).length := by
    rw [runChunkBuilder]
    dsimp only
    rw [ha]
  refine ⟨by rw [hcount, hf], by rw [hchunks, hf], by rw [hchunks, hd], ?_, ?_⟩
  · rw [hchunks, he]
  · have h1 : (runChunkBuilder S records).chunks.map
        (fun ch => ch.records.map RawRecord.line)
      = ((runChunkBuilder S records).chunks.map Chunk.records).map
          (List.map RawRecord.line) :=
      (List.map_map (List.map RawRecord.line) Chunk.records
        (runChunkBuilder S records).chunks).symm
    rw [h1, hchunks, ← List.map_flatten, hd]

/-- C2: in the emitted `byPartPrefix4` map, a chunk id `i` appears in
the list under key `p` iff some record written to the chunk with id `i`
has `p` as the 4-character prefix of its normalized part number; in
particular every record whose normalized part number has length ≥ 4 is
reachable through its prefix key. -/
theorem chunkBuilder_index (S : Nat) (hS : 1 ≤ S) (records : List RawRecord)
    (hvalid : ∀ r ∈ records, ¬ (normalizePartNumber r.partNumber = "")) :
    (∀ p i, i ∈ idsOf (runChunkBuilder S records).byPartPrefix4 p ↔
      ∃ ch ∈ (runChunkBuilder S records).chunks, ch.id = i ∧
        ∃ r ∈ ch.records, getPartPrefix4 r.partNumber = some p) ∧
    (∀ ch ∈ (runChunkBuilder S records).chunks, ∀ r ∈ ch.records,
      4 ≤ (normalizePartNumber r.partNumber).data.length →
      ch.id ∈ idsOf (runChunkBuilder S records).byPartPrefix4
        (((normalizePartNumber r.partNumber).data.take 4).asString)) := by
  have hInv := build_fold_inv S hS records [] initialBuildState (buildInv_initial S) hvalid
  rw [List.nil_append] at hInv
  have hidx : IndexInv (records.foldl (stepRecord S) initialBuildState) :=
    hInv.2.2.2.2.2.2.2
  obtain ⟨ha, hb, _hc, _hd, _he, _hf⟩ :=
    closeChunk_final S hS records (records.foldl (stepRecord S) initialBuildState) hInv
  have hchunks : (runChunkBuilder S records).chunks
      = chunksAll (records.foldl (stepRecord S) initialBuildState) := by
    rw [runChunkBuilder]
    exact ha
  have hmap : (runChunkBuilder S records).byPartPrefix4
      = sortedIndexObject (records.foldl (stepRecord S) initialBuildState).partIdx := by
    rw [runChunkBuilder]
    dsimp only
    rw [hb]
  have hmain : ∀ p i, i ∈ idsOf (runChunkBuilder S records).byPartPrefix4 p ↔
      ∃ ch ∈ (runChunkBuilder S records).chunks, ch.id = i ∧
        ∃ r ∈ ch.records, getPartPrefix4 r.partNumber = some p := by
    intro p i
    rw [hmap, mem_idsOf_sortedIndexObject, hchunks]
    exact hidx p i
  refine ⟨hmain, ?_⟩
  intro ch hch r hr hlen
  apply (hmain (((normalizePartNumber r.partNumber).data.take 4).asString) ch.id).mpr
  refine ⟨ch, hch, rfl, r, hr, ?_⟩
  rw [getPartPrefix4, if_neg (by omega)]

/-- Concrete records for the builder witnesses. -/
def cRecs : List RawRecord :=
  [⟨"l1", "A123-4567", "Blinker links"⟩, ⟨"l2", "a123.9999", "Tür"⟩, ⟨"l3", "B999", "ab"⟩]

/-- Witness for C1: three valid records, chunk size 2, give
`⌈3/2⌉ = 2` chunks whose concatenation is the input stream. -/
theorem chunkBuilder_partition_witness :
    (1 ≤ 2 ∧ ∀ r ∈ cRecs, ¬ (normalizePartNumber r.partNumber = "")) ∧
    (runChunkBuilder 2 cRecs).chunkCount = 2 ∧
    ((runChunkBuilder 2 cRecs).chunks.map Chunk.records).flatten = cRecs := by
  refine ⟨⟨by decide, by decide⟩, ?_, ?_⟩
  · exact (chunkBuilder_partition 2 (by decide) cRecs (by decide)).1
  · exact (chunkBuilder_partition 2 (by decide) cRecs (by decide)).2.2.1

/-- Witness for C2: the prefix key `A123` of the first record resolves
to chunk 0, and conversely chunk 0 holds a matching record. -/
theorem chunkBuilder_index_witness :
    (∃ ch ∈ (runChunkBuilder 2 cRecs).chunks, ch.id = 0 ∧
      ∃ r ∈ ch.records, getPartPrefix4 r.partNumber = some "A123") ∧
    0 ∈ idsOf (runChunkBuilder 2 cRecs).byPartPrefix4 "A123" := by
  refine ⟨by decide, ?_⟩
  exact ((chunkBuilder_index 2 (by decide) cRecs (by decide)).1 "A123" 0).mpr (by decide)

/-! ## Extraction Engine (src part_003: `extractAvailability`, `extractPrice`,
`extractItemsFromHtml`, `extractItemsFromStructuredScripts`)

HTML parsing is external (cheerio); a fetched page is therefore
modelled by what the extraction strategies observe of it (`Page`
below).  The JSON walks over structured data are translated
concretely. -/

/-- JavaScript `\s` for the whitespace the matchers and `trim` use
(ASCII variants; the full Unicode class is irrelevant to the inputs at
hand). -/
def isWsChar (c : Char) : Bool :=
  c = ' ' || c = '\t' || c = '\n' || c = '\r' || c.toNat = 11 || c.toNat = 12

/-- JavaScript `String.prototype.trim`. -/
def trimString (s : String) : String :=
  (((s.data.dropWhile isWsChar).reverse.dropWhile isWsChar).reverse).asString

/-- Match a `\s+`-separated word sequence at the head of `s` (the shape
of every alternative in the availability regexes; since every word
starts with a non-space character, the greedy `\s+` is exact). -/
def matchWordsAt : List (List Char) → List Char → Bool
  | [], _ => true
  | [w], s => w.isPrefixOf s
  | w :: ws, s =>
    w.isPrefixOf s &&
    (let rest := s.drop w.length
     let wsRun := rest.takeWhile isWsChar
     decide (1 ≤ wsRun.length) && matchWordsAt ws (rest.drop wsRun.length))

/-- Unanchored search for a word sequence. -/
def matchWordsAnywhere (words : List (List Char)) : List Char → Bool
  | [] => matchWordsAt words []
  | s@(_ :: rest) => matchWordsAt words s || matchWordsAnywhere words rest

/-- One alternation of word-sequence patterns against a text. -/
def textHasPattern (pats : List (List String)) (text : List Char) : Bool :=
  pats.any (fun ws => matchWordsAnywhere (ws.map String.data) text)

/-- `extractAvailability(text)` of part_003: lower-case the text and
test the three keyword classes in order; a pre-order hit is reported
with status `unknown` (label `Preorder`). -/
def extractAvailability (text : String) : Availability :=
  let normalized := text.data.map lowChar
  if textHasPattern [["nicht", "verfügbar"], ["out", "of", "stock"], ["sold", "out"]]
      normalized then
    { status := .out_of_stock, label := "Out of stock" }
  else if textHasPattern [["verfügbar"], ["lieferbar"], ["in", "stock"],
      ["sofort", "lieferbar"]] normalized then
    { status := .in_stock, label := "In stock" }
  else if textHasPattern [["vorbestell"], ["preorder"]] normalized then
    { status := .unknown, label := "Preorder" }
  else
    unknownAvailability

/-! The currency-amount regex
`\b\d{1,3}(?:[.,]\d{3})*(?:[.,]\d{2})\s?(?:€|EUR)\b/i`, implemented
with explicit greedy-with-backtracking semantics. -/

def isDigitChar (c : Char) : Bool := 48 ≤ c.toNat && c.toNat ≤ 57

/-- JavaScript `\w` (ASCII word characters), for `\b`. -/
def isWordChar (c : Char) : Bool :=
  isDigitChar c || (65 ≤ c.toNat && c.toNat ≤ 90) || (97 ≤ c.toNat && c.toNat ≤ 122) ||
  c = '_'

def isSepChar (c : Char) : Bool := c = '.' || c = ','

/-- `\b` after the final matched character `last`. -/
def boundaryAfter (last : Char) (rest : List Char) : Bool :=
  match rest with
  | [] => isWordChar last
  | c :: _ => isWordChar last ≠ isWordChar c

/-- `(?:€|EUR)\b` (case-insensitive on `EUR`); returns the consumed
length. -/
def matchCurrencySign (s : List Char) : Option Nat :=
  match s with
  | c :: rest =>
    if c = '€' then
      if boundaryAfter '€' rest then some 1 else none
    else
      match s with
      | e :: u :: r :: rest' =>
        if (lowChar e = 'e' && lowChar u = 'u' && lowChar r = 'r')
            && boundaryAfter r rest' then some 3 else none
      | _ => none
  | [] => none

/-- `\s?(?:€|EUR)\b`: greedy, so the one-whitespace variant is tried
first. -/
def matchSpaceCurrency (s : List Char) : Option Nat :=
  match s with
  | c :: rest =>
    if isWsChar c then
      match matchCurrencySign rest with
      | some n => some (n + 1)
      | none => matchCurrencySign s
    else matchCurrencySign s
  | [] => none

/-- `(?:[.,]\d{2})\s?(?:€|EUR)\b`. -/
def matchCents (s : List Char) : Option Nat :=
  match s with
  | sep :: d1 :: d2 :: rest =>
    if isSepChar sep && isDigitChar d1 && isDigitChar d2 then
      match matchSpaceCurrency rest with
      | some n => some (n + 3)
      | none => none
    else none
  | _ => none

/-- `(?:[.,]\d{3})*(?:[.,]\d{2})\s?(?:€|EUR)\b`: the star is greedy, so
a longer group run is preferred, backtracking group by group. -/
def matchGroups : Nat → List Char → Option Nat
  | 0, s => matchCents s
  | fuel + 1, s =>
    match (match s with
      | sep :: a :: b :: c :: rest =>
        if isSepChar sep && isDigitChar a && isDigitChar b && isDigitChar c then
          match matchGroups fuel rest with
          | some n => some (n + 4)
          | none => none
        else none
      | _ => none) with
    | some n => some n
    | none => matchCents s

/-- `\d{1,3}` (greedy) followed by the rest of the pattern. -/
def matchAmount (s : List Char) : Option Nat :=
  let try1 : Option Nat :=
    match s with
    | a :: rest =>
      if isDigitChar a then
        match matchGroups rest.length rest with
        | some n => some (n + 1)
        | none => none
      else none
    | _ => none
  let try2 : Option Nat :=
    match s with
    | a :: b :: rest =>
      if isDigitChar a && isDigitChar b then
        match matchGroups rest.length rest with
        | some n => some (n + 2)
        | none => none
      else none
    | _ => none
  let try3 : Option Nat :=
    match s with
    | a :: b :: c :: rest =>
      if isDigitChar a && isDigitChar b && isDigitChar c then
        match matchGroups rest.length rest with
        | some n => some (n + 3)
        | none => none
      else none
    | _ => none
  match try3 with
  | some n => some n
  | none =>
    match try2 with
    | some n => some n
    | none => try1

/-- Leftmost match of the full pattern: at each position require the
leading `\b` (the previous character must not be a word character,
since the first matched character is a digit). -/
def scanCurrency (prev : Option Char) : List Char → Option (List Char)
  | [] => none
  | s@(c :: rest) =>
    let bOk := match prev with
      | none => true
      | some p => !(isWordChar p)
    match (if bOk && isDigitChar c then matchAmount s else none) with
    | some n => some (s.take n)
    | none => scanCurrency (some c) rest

/-- `extractPrice(text)`: the first currency-amount match, trimmed. -/
def extractPrice (text : String) : Option String :=
  match scanCurrency none text.data with
  | some m => some (trimString m.asString)
  | none => none

example : extractPrice "ab 1.234,56 EUR zzgl." = some "1.234,56 EUR" := by decide
example : extractPrice "12,34 EURO" = none := by decide
example : extractPrice "" = none := by decide

/-! ### Parsed JSON values (the payloads of `JSON.parse`) -/

inductive Json where
  | str (s : String)
  | num (n : Int)
  | bool (b : Bool)
  | null
  | arr (xs : List Json)
  | obj (fields : List (String × Json))

mutual
/-- Size measure used to pick sufficient fuel for the breadth-first
walks. -/
def jsize : Json → Nat
  | .str _ => 1
  | .num _ => 1
  | .bool _ => 1
  | .null => 1
  | .arr xs => 1 + jsizeList xs
  | .obj fs => 1 + jsizeFields fs

def jsizeList : List Json → Nat
  | [] => 0
  | x :: xs => jsize x + jsizeList xs

def jsizeFields : List (String × Json) → Nat
  | [] => 0
  | f :: fs => jsize f.2 + jsizeFields fs
end

mutual
/-- JavaScript `String(v)`. -/
def jsToString : Json → String
  | .str s => s
  | .num n => toString n
  | .bool b => if b then "true" else "false"
  | .null => "null"
  | .obj _ => "[object Object]"
  | .arr xs => jsArrToString xs

def jsArrToString : List Json → String
  | [] => ""
  | [x] =>
    (match x with
     | .null => ""
     | v => jsToString v)
  | x :: xs =>
    (match x with
     | .null => ""
     | v => jsToString v) ++ "," ++ jsArrToString xs
end

/-- JavaScript truthiness of a JSON value. -/
def truthy : Json → Bool
  | .str s => !(s = "")
  | .num n => !(n = 0)
  | .bool b => b
  | .null => false
  | .arr _ => true
  | .obj _ => true

/-- Object field access coalescing `null`/missing to `none` (`x.f ?? y`
falls through exactly on those). -/
def getFieldNN (fs : List (String × Json)) (key : String) : Option Json :=
  match lookupA fs key with
  | some .null => none
  | some v => some v
  | none => none

/-- `String(x.f ?? '')`. -/
def fieldString (fs : List (String × Json)) (key : String) : String :=
  match getFieldNN fs key with
  | some v => jsToString v
  | none => ""

/-- `toStringIfDefined(v)`: trimmed non-empty strings and stringified
numbers only. -/
def toStringIfDefined : Json → Option String
  | .str s =>
    let t := trimString s
    if t = "" then none else some t
  | .num n => some (toString n)
  | _ => none

/-- `toStringIfDefined(record.key)` (`undefined` for a missing key). -/
def tsidField (fs : List (String × Json)) (key : String) : Option String :=
  (getFieldNN fs key).bind toStringIfDefined

/-- The object-valued children pushed by the walks
(`value && typeof value === 'object'`: arrays and non-null objects). -/
def objChildren (fs : List (String × Json)) : List Json :=
  (fs.map Prod.snd).filter (fun v =>
    match v with
    | .arr _ => true
    | .obj _ => true
    | _ => false)

/-- JavaScript `toLowerCase` of a string (ASCII plus umlauts, as in
`lowChar`). -/
def lowerString (s : String) : String := (s.data.map lowChar).asString

/-- The JSON-LD pass of `extractItemsFromHtml` (part_003 lines
395-447): breadth-first over one parsed script payload, collecting
`@type: Product` entries whose normalized SKU matches the filter.  A
product entry that fails the filter `continue`s without enqueueing its
children; fuel is the walk's step bound (callers pass the payload
size, which the queue discipline never exceeds). -/
def ldWalk (baseUrl : String) (prefixes : List String) : Nat → List Json → List PartItem
  | 0, _ => []
  | _ + 1, [] => []
  | fuel + 1, item :: rest =>
    match item with
    | .null => ldWalk baseUrl prefixes fuel rest
    | .str _ => ldWalk baseUrl prefixes fuel rest
    | .num _ => ldWalk baseUrl prefixes fuel rest
    | .bool _ => ldWalk baseUrl prefixes fuel rest
    | .arr xs => ldWalk baseUrl prefixes fuel (rest ++ xs)
    | .obj fs =>
      let typeStr := fieldString fs "@type"
      if lowerString typeStr = "product" then
        let sku := match getFieldNN fs "sku" with
          | some v => jsToString v
          | none =>
            match getFieldNN fs "productID" with
            | some v => jsToString v
            | none => ""
        let partNumber := normalizePartNumber sku
        let validPfx := prefixes.isEmpty || prefixes.any (fun p => strStarts p partNumber)
        if partNumber = "" || !validPfx then
          ldWalk baseUrl prefixes fuel rest
        else
          let offers := getFieldNN fs "offers"
          let firstOffer : Option Json := match offers with
            | some (.arr xs) => xs.head?
            | some v => some v
            | none => none
          let offerField := fun (key : String) =>
            match firstOffer with
            | some (.obj ofs) => getFieldNN ofs key
            | _ => none
          let price : Option String :=
            match offerField "price" with
            | some pv =>
              if truthy pv then
                some (jsToString pv ++
                  (match offerField "priceCurrency" with
                   | some cv => if truthy cv then " " ++ jsToString cv else ""
                   | none => ""))
              else none
            | none => none
          let avail := extractAvailability
            (match offerField "availability" with
             | some av => jsToString av
             | none =>
               match getFieldNN fs "availability" with
               | some av => jsToString av
               | none => "")
          let name := match getFieldNN fs "name" with
            | some nv => jsToString nv
            | none => "Part " ++ partNumber
          let url := match getFieldNN fs "url" with
            | some uv => jsToString uv
            | none => baseUrl
          { partNumber := partNumber, name := name, price := price, url := url,
            availability := avail }
            :: ldWalk baseUrl prefixes fuel (rest ++ objChildren fs)
      else
        ldWalk baseUrl prefixes fuel (rest ++ objChildren fs)

/-- The breadth-first walk of `extractItemsFromStructuredScripts`
(part_003 lines 198-258): any object carrying a recognizable
part-identifier field matching a filter becomes a record; children are
always enqueued.  `resolveU rel base` is `new URL(rel, base).toString()`. -/
def structWalk (resolveU : String → String → String) (baseUrl : String)
    (prefixes : List String) : Nat → List Json → List PartItem
  | 0, _ => []
  | _ + 1, [] => []
  | fuel + 1, item :: rest =>
    match item with
    | .null => structWalk resolveU baseUrl prefixes fuel rest
    | .str _ => structWalk resolveU baseUrl prefixes fuel rest
    | .num _ => structWalk resolveU baseUrl prefixes fuel rest
    | .bool _ => structWalk resolveU baseUrl prefixes fuel rest
    | .arr xs => structWalk resolveU baseUrl prefixes fuel (rest ++ xs)
    | .obj fs =>
      let rawPartNumber :=
        match tsidField fs "partNumber" with
        | some v => some v
        | none =>
          match tsidField fs "productNumber" with
          | some v => some v
          | none =>
            match tsidField fs "articleNumber" with
            | some v => some v
            | none =>
              match tsidField fs "sku" with
              | some v => some v
              | none => tsidField fs "productId"
      let pushed : List PartItem :=
        match rawPartNumber with
        | none => []
        | some raw =>
          let resolved := normalizePartNumber raw
          if !(resolved = "") && prefixes.any (fun p => strStarts p resolved) then
            let rawUrl := match tsidField fs "url" with
              | some v => v
              | none =>
                match tsidField fs "link" with
                | some v => v
                | none =>
                  match tsidField fs "productUrl" with
                  | some v => v
                  | none => baseUrl
            let rawPrice :=
              match tsidField fs "price" with
              | some v => some v
              | none =>
                match tsidField fs "priceValue" with
                | some v => some v
                | none => tsidField fs "formattedPrice"
            let rawAvail :=
              match tsidField fs "availability" with
              | some v => v
              | none =>
                match tsidField fs "stockStatus" with
                | some v => v
                | none =>
                  match tsidField fs "deliveryStatus" with
                  | some v => v
                  | none => ""
            let name :=
              match tsidField fs "name" with
              | some v => v
              | none =>
                match tsidField fs "title" with
                | some v => v
                | none =>
                  match tsidField fs "productName" with
                  | some v => v
                  | none => "Part " ++ resolved
            [{ partNumber := resolved, name := name,
               price := match rawPrice with
                 | some rp => some ((extractPrice rp).getD rp)
                 | none => none,
               url := resolveU rawUrl baseUrl,
               availability := extractAvailability rawAvail }]
          else []
      pushed ++ structWalk resolveU baseUrl prefixes fuel (rest ++ objChildren fs)

/-- What the extraction strategies observe of one fetched page.
`containerItems`/`anchorItems` are the records the two DOM passes push
(cheerio selector work, external to the code under proof); `ldJson`
are the successfully parsed `script[type="application/ld+json"]`
payloads; `scriptJson` is the `jsonCandidates` list of the
embedded-state pass (parsed inline-script bodies and recognized
state-assignment blobs — for a page whose only inline script is the
JSON-LD block, this holds the same payload again). -/
structure Page where
  containerItems : List PartItem
  anchorItems : List PartItem
  ldJson : List Json
  scriptJson : List Json

/-- `extractItemsFromStructuredScripts` on the page's candidate list. -/
def extractItemsFromStructuredScripts (resolveU : String → String → String)
    (page : Page) (baseUrl : String) (prefixes : List String) : List PartItem :=
  (page.scriptJson.map
    (fun cand => structWalk resolveU baseUrl prefixes (jsize cand + 1) [cand])).flatten

/-- `extractItemsFromHtml(html, baseUrl, prefixes)` (part_003 lines
273-454): container pass, anchor fallback when it found nothing,
JSON-LD pass, and the embedded-state fallback when fewer than 3
records were accumulated. -/
def extractItemsFromHtml (resolveU : String → String → String) (page : Page)
    (baseUrl : String) (prefixes : List String) : List PartItem :=
  let extracted := page.containerItems
  let extracted := if extracted.length = 0 then extracted ++ page.anchorItems else extracted
  let extracted := extracted ++
    (page.ldJson.map (fun payload =>
      let queue := match payload with
        | .arr xs => xs
        | v => [v]
      ldWalk baseUrl prefixes (jsize payload + 1) queue)).flatten
  if extracted.length < 3 then
    extracted ++ extractItemsFromStructuredScripts resolveU page baseUrl prefixes
  else extracted

/-! ### Crawler plumbing (part_003: `fetchParts`, `collectPartsFromSitemap`) -/

/-- Uppercase hex digit. -/
def hexDigitChar (n : Nat) : Char :=
  if n < 10 then Char.ofNat (48 + n) else Char.ofNat (55 + n)

/-- UTF-8 byte sequence of one code point. -/
def utf8Bytes (n : Nat) : List Nat :=
  if n < 128 then [n]
  else if n < 2048 then [192 + n / 64, 128 + n % 64]
  else if n < 65536 then [224 + n / 4096, 128 + (n / 64) % 64, 128 + n % 64]
  else [240 + n / 262144, 128 + (n / 4096) % 64, 128 + (n / 64) % 64, 128 + n % 64]

/-- The characters `encodeURIComponent` leaves unescaped. -/
def isUriUnreservedChar (c : Char) : Bool :=
  isPartChar (upChar c) || c = '-' || c = '_' || c = '.' || c = '!' || c = '~' ||
    c = '*' || c = '\'' || c = '(' || c = ')'

/-- `encodeURIComponent(s)`: percent-encode the UTF-8 bytes of every
reserved character. -/
def encodeURIComponent (s : String) : String :=
  ((s.data.map (fun c =>
    if isUriUnreservedChar c then [c]
    else ((utf8Bytes c.toNat).map
      (fun b => ['%', hexDigitChar (b / 16), hexDigitChar (b % 16)])).flatten)).flatten).asString

def MB_SEARCH_BASE : String := "https://originalteile.mercedes-benz.de/search"

/-- The page URL fetched for one search term. -/
def searchUrl (term : String) : String :=
  MB_SEARCH_BASE ++ "?search=" ++ encodeURIComponent term

/-- `big.includes(pat)`. -/
def subAt (pat : List Char) : List Char → Bool
  | [] => pat.isEmpty
  | s@(_ :: cs) => List.isPrefixOf pat s || subAt pat cs

def containsSub (s pat : String) : Bool := subAt pat.data s.data

/-- Split at every character satisfying `p` (JS `String.split` with a
single-character class). -/
def splitCharList (p : Char → Bool) : List Char → List (List Char)
  | [] => [[]]
  | c :: cs =>
    if p c then [] :: splitCharList p cs
    else
      match splitCharList p cs with
      | [] => [[c]]
      | g :: gs => (c :: g) :: gs

/-- Drop a carriage return left at the end of a segment by splitting
`\r?\n` on the `\n` alone. -/
def stripCR (l : List Char) : List Char :=
  if l.getLast? = some '\r' then l.dropLast else l

def stripCRInit : List (List Char) → List (List Char)
  | [] => []
  | [l] => [l]
  | l :: ls => stripCR l :: stripCRInit ls

/-- `s.split(/\r?\n/)`. -/
def splitLines (s : String) : List (List Char) :=
  stripCRInit (splitCharList (fun c => c = '\n') s.data)

def trimList (l : List Char) : List Char :=
  ((l.dropWhile isWsChar).reverse.dropWhile isWsChar).reverse

/-- One robots.txt line against `/^\s*Sitemap:\s*(\S+)\s*$/i`. -/
def parseSitemapLine (line : List Char) : Option String :=
  let rest := line.dropWhile isWsChar
  let tag := "sitemap:".data
  if List.isPrefixOf tag ((rest.take tag.length).map lowChar) then
    let rest2 := (rest.drop tag.length).dropWhile isWsChar
    let tok := rest2.takeWhile (fun c => !isWsChar c)
    let after := rest2.drop tok.length
    if decide (1 ≤ tok.length) && after.all isWsChar then some tok.asString else none
  else none

/-- Sitemap URLs contributed by a robots.txt body. -/
def robotsSitemapUrls (txt : String) : List String :=
  (splitLines txt).filterMap parseSitemapLine

/-- `String.prototype.replaceAll` with a literal pattern, left to right,
never rescanning a replacement.  Fuel is the input length (each step
consumes at least one input character for the non-empty patterns
used). -/
def replaceAllGo (pat rep : List Char) : Nat → List Char → List Char
  | 0, s => s
  | _ + 1, [] => []
  | fuel + 1, c :: cs =>
    if List.isPrefixOf pat (c :: cs) then
      rep ++ replaceAllGo pat rep fuel ((c :: cs).drop pat.length)
    else
      c :: replaceAllGo pat rep fuel cs

def replaceAllL (pat rep s : List Char) : List Char :=
  replaceAllGo pat rep s.length s

/-- `decodeXmlEntities(value)`: the five sequential `replaceAll`
passes. -/
def decodeXmlEntities (l : List Char) : List Char :=
  replaceAllL "&#39;".data "'".data
    (replaceAllL "&quot;".data "\"".data
      (replaceAllL "&gt;".data ">".data
        (replaceAllL "&lt;".data "<".data
          (replaceAllL "&amp;".data "&".data l))))

/-- Case-insensitive literal match at the head of `s`. -/
def lowHeadIs (pat : List Char) (s : List Char) : Bool :=
  List.isPrefixOf pat ((s.take pat.length).map lowChar)

/-- The lazy `[\s\S]*?<\/loc>` tail: content up to the first
case-insensitive `</loc>`, plus the remainder after it. -/
def takeUntilCloseLoc : Nat → List Char → Option (List Char × List Char)
  | 0, _ => none
  | _ + 1, [] => none
  | fuel + 1, s@(c :: cs) =>
    if lowHeadIs "</loc>".data s then some ([], s.drop 6)
    else
      match takeUntilCloseLoc fuel cs with
      | some (content, rest) => some (c :: content, rest)
      | none => none

/-- `extractLocsFromXml`: every `/<loc>([\s\S]*?)<\/loc>/gi` capture,
trimmed and entity-decoded, empty values dropped.  An opening tag with
no closing tag anywhere after it ends the scan (no later match can
close either). -/
def extractLocsGo : Nat → List Char → List String
  | 0, _ => []
  | _ + 1, [] => []
  | fuel + 1, s@(_ :: cs) =>
    if lowHeadIs "<loc>".data s then
      match takeUntilCloseLoc s.length (s.drop 5) with
      | some (content, rest) =>
        let v := decodeXmlEntities (trimList content)
        (if v.isEmpty then [] else [v.asString]) ++ extractLocsGo fuel rest
      | none => []
    else extractLocsGo fuel cs

def extractLocsFromXml (xml : String) : List String :=
  extractLocsGo (xml.data.length + 1) xml.data

/-- `(?:$|\?)`. -/
def endOrQuery : List Char → Bool
  | [] => true
  | c :: _ => c = '?'

/-- `/\.xml(?:\.gz)?(?:$|\?)/i` at one position. -/
def sitemapTailAt (s : List Char) : Bool :=
  lowHeadIs ".xml".data s &&
    (let r := s.drop 4
     (lowHeadIs ".gz".data r && endOrQuery (r.drop 3)) || endOrQuery r)

def anyTailPos (p : List Char → Bool) : List Char → Bool
  | [] => p []
  | s@(_ :: cs) => p s || anyTailPos p cs

/-- `isSitemapUrl(url)`. -/
def isSitemapUrl (url : String) : Bool := anyTailPos sitemapTailAt url.data

/-- JavaScript `toUpperCase` (per-character ASCII model, matching
`upChar`). -/
def upperChars (s : String) : List Char := s.data.map upChar

/-- The generic pattern `A\d{9,14}` at one position: the literal `A`
and then greedily up to 14 digits, at least 9. -/
def genericPartAt (s : List Char) : Option (List Char) :=
  match s with
  | 'A' :: rest =>
    let ds := (rest.takeWhile isDigitChar).take 14
    if decide (9 ≤ ds.length) then some ('A' :: ds) else none
  | _ => none

/-- First position where `f` matches (a global regex's first match). -/
def firstMatchPos (f : List Char → Option (List Char)) : List Char → Option (List Char)
  | [] => f []
  | s@(_ :: cs) =>
    match f s with
    | some m => some m
    | none => firstMatchPos f cs

/-- `[A-Z0-9-]`. -/
def isHrefClassChar (c : Char) : Bool := isPartChar c || c = '-'

/-- `escapedPrefix[A-Z0-9-]{2,40}` at one position, returning the match
and the remainder after it. -/
def prefixPartAt (pfx : List Char) (s : List Char) : Option (List Char × List Char) :=
  if List.isPrefixOf pfx s then
    let rest := s.drop pfx.length
    let cls := (rest.takeWhile isHrefClassChar).take 40
    if decide (2 ≤ cls.length) then some (pfx ++ cls, rest.drop cls.length) else none
  else none

/-- All matches of the per-prefix regex in source order (the `g` flag:
scanning resumes after each match). -/
def scanPrefixPart (pfx : List Char) : Nat → List Char → List (List Char)
  | 0, _ => []
  | _ + 1, [] => []
  | fuel + 1, s@(_ :: cs) =>
    match prefixPartAt pfx s with
    | some (m, rest) => m :: scanPrefixPart pfx fuel rest
    | none => scanPrefixPart pfx fuel cs

/-- The per-prefix pass of `extractPartNumberFromHref`: first match
whose normalization starts with the prefix. -/
def hrefPartForPfx (pfx : String) (upHref : List Char) : Option String :=
  (scanPrefixPart pfx.data (upHref.length + 1) upHref).findSome?
    (fun m =>
      let n := normalizePartNumber m.asString
      if strStarts pfx n then some n else none)

/-- `extractPartNumberFromHref(href, prefixes)`. -/
def extractPartNumberFromHref (href : String) (prefixes : List String) : Option String :=
  let nh := upperChars href
  let generic : Option String :=
    if prefixes.isEmpty then
      match firstMatchPos genericPartAt nh with
      | some m => some (normalizePartNumber m.asString)
      | none => none
    else none
  match generic with
  | some pn => some pn
  | none => prefixes.findSome? (fun pfx => hrefPartForPfx pfx nh)

/-- `/[-_]+/g → ' '`: a run of dashes and underscores becomes one
space. -/
def collapseDU : List Char → List Char
  | [] => []
  | [c] => [if c = '-' || c = '_' then ' ' else c]
  | c :: d :: cs =>
    if (c = '-' || c = '_') && (d = '-' || d = '_') then collapseDU (d :: cs)
    else (if c = '-' || c = '_' then ' ' else c) :: collapseDU (d :: cs)

/-- `/\b\w/g → toUpperCase`: uppercase every word character not
preceded by one. -/
def capWordsAux (prevIsWord : Bool) : List Char → List Char
  | [] => []
  | c :: cs =>
    let w := isWordChar c
    (if w && !prevIsWord then upChar c else c) :: capWordsAux w cs

/-- `guessNameFromUrl(url)` given the oracle-resolved `pathname`
(`none` models a `new URL(url)` throw). -/
def guessNameFromUrl (pathname : Option String) : String :=
  match pathname with
  | none => "Unknown"
  | some pn =>
    let segments := (splitCharList (fun c => c = '/') pn.data).filter
      (fun l => !l.isEmpty)
    if segments.isEmpty then "Unknown"
    else
      let rev := segments.reverse
      let slug := if 2 ≤ segments.length then (rev[1]?).getD [] else rev.headD []
      let name := capWordsAux false (trimList (collapseDU slug))
      if name.isEmpty then "Unknown" else name.asString

/-- What one `fetch` of a search page resolves to: a 3xx response (with
its raw `location` header), a non-ok response (status and status text,
which throw), or an ok page.  On the ok page, `page` is what the
extraction strategies observe of the html and `next` is
`findNextPageUrl(html, pageUrl)` (DOM + URL work external to the code
under proof). -/
inductive PageFetch where
  | redirect (location : Option String)
  | httpFail (status : Nat) (statusText : String)
  | ok (page : Page) (next : Option String)

/-- The crawl's external world: page fetches, the robots.txt body
(`none` = fetch failed), sitemap bodies by URL (`none` = fetch failed),
product-detail metadata, `new URL(rel, base).toString()` resolution and
`new URL(url).pathname` (`none` = invalid URL). -/
structure CrawlEnv where
  fetchPage : String → PageFetch
  robots : Option String
  sitemapXml : String → Option String
  detail : DetailEnv
  resolveU : String → String → String
  pathname : String → Option String

/-- The per-page acceptance loop of `fetchParts`: prefix check, outer
dedup, append, stop at the limit. -/
def acceptItems (searchPfx : String) (limit : Nat) :
    List String → List PartItem → List PartItem → List String × List PartItem
  | seen, items, [] => (seen, items)
  | seen, items, it :: rest =>
    if !(strStarts searchPfx it.partNumber) then acceptItems searchPfx limit seen items rest
    else if seen.contains it.partNumber then acceptItems searchPfx limit seen items rest
    else
      let seen' := seen ++ [it.partNumber]
      let items' := items ++ [it]
      if limit ≤ items'.length then (seen', items')
      else acceptItems searchPfx limit seen' items' rest

/-- The pagination loop of `fetchParts` for one search term.  Fuel is
`pageCount < MAX_PAGES` (the counter increments once per iteration, so
iterations and the counter coincide).  A non-ok non-3xx response throws
(`Except.error`); a 3xx without `location` or with a redirect outside
`/search` breaks to the next term. -/
def pageLoop (env : CrawlEnv) (searchPfx : String) (limit : Nat) :
    Nat → String → List String → List String → List PartItem →
    Except String (List String × List PartItem)
  | 0, _, _, seen, items => .ok (seen, items)
  | fuel + 1, pageUrl, visited, seen, items =>
    if visited.contains pageUrl || limit ≤ items.length then .ok (seen, items)
    else
      let visited' := visited ++ [pageUrl]
      match env.fetchPage pageUrl with
      | .redirect none => .ok (seen, items)
      | .redirect (some locHeader) =>
        let redirectUrl := env.resolveU locHeader pageUrl
        if !(containsSub redirectUrl "/search") then .ok (seen, items)
        else pageLoop env searchPfx limit fuel redirectUrl visited' seen items
      | .httpFail status statusText =>
        .error ("Upstream request failed: " ++ toString status ++ " " ++ statusText)
      | .ok page next =>
        let extracted := extractItemsFromHtml env.resolveU page pageUrl [searchPfx]
        let r := acceptItems searchPfx limit seen items extracted
        match next with
        | none => .ok r
        | some nextUrl => pageLoop env searchPfx limit fuel nextUrl visited' r.1 r.2

def MAX_PAGES : Nat := 500

/-- The three search-term variants tried for one prefix. -/
def termLoop (env : CrawlEnv) (searchPfx : String) (limit : Nat) :
    List String → List PartItem → List String →
    Except String (List String × List PartItem)
  | seen, items, [] => .ok (seen, items)
  | seen, items, term :: terms =>
    if limit ≤ items.length then .ok (seen, items)
    else
      match pageLoop env searchPfx limit MAX_PAGES (searchUrl term) [] seen items with
      | .error e => .error e
      | .ok (seen', items') => termLoop env searchPfx limit seen' items' terms

/-- The outer prefix loop of `fetchParts`. -/
def prefixLoop (env : CrawlEnv) (limit : Nat) :
    List String → List PartItem → List String →
    Except String (List String × List PartItem)
  | seen, items, [] => .ok (seen, items)
  | seen, items, searchPfx :: rest =>
    if limit ≤ items.length then .ok (seen, items)
    else
      match termLoop env searchPfx limit seen items
          [searchPfx, searchPfx ++ "*", searchPfx ++ " "] with
      | .error e => .error e
      | .ok (seen', items') => prefixLoop env limit seen' items' rest

/-- Accumulator of the inner `for (const loc of locs)` loop of
`collectPartsFromSitemap`. -/
structure SmAcc where
  queue : List String
  found : List PartItem
  seenP : List String

/-- The per-loc loop: sitemap URLs are enqueued when not yet visited,
other locs become items via `extractPartNumberFromHref`, deduplicated,
with a break once the limit is filled. -/
def processLocs (env : CrawlEnv) (prefixes : List String) (limit : Nat)
    (visited : List String) : List String → SmAcc → SmAcc
  | [], acc => acc
  | loc :: locs, acc =>
    if isSitemapUrl loc then
      let acc' := if visited.contains loc then acc
        else { queue := acc.queue ++ [loc], found := acc.found, seenP := acc.seenP }
      processLocs env prefixes limit visited locs acc'
    else
      match extractPartNumberFromHref loc prefixes with
      | none => processLocs env prefixes limit visited locs acc
      | some pn =>
        if acc.seenP.contains pn then processLocs env prefixes limit visited locs acc
        else
          let acc' : SmAcc :=
            { queue := acc.queue
              found := acc.found ++
                [{ partNumber := pn, name := guessNameFromUrl (env.pathname loc),
                   url := loc, availability := unknownAvailability }]
              seenP := acc.seenP ++ [pn] }
          if limit ≤ acc'.found.length then acc'
          else processLocs env prefixes limit visited locs acc'

/-- The `while` of `collectPartsFromSitemap`.  The loop guard caps
visited sitemaps at `maxSitemaps = 500`; total iterations (including
skips of already-visited queue entries) are bounded by the explicit
fuel the model takes as a parameter. -/
def sitemapLoop (env : CrawlEnv) (prefixes : List String) (limit : Nat) :
    Nat → List String → SmAcc → List PartItem
  | 0, _, acc => acc.found
  | fuel + 1, visited, acc =>
    match acc.queue with
    | [] => acc.found
    | url :: rest =>
      if 500 ≤ visited.length || limit ≤ acc.found.length then acc.found
      else if url = "" || visited.contains url then
        sitemapLoop env prefixes limit fuel visited
          { queue := rest, found := acc.found, seenP := acc.seenP }
      else
        let visited' := visited ++ [url]
        match env.sitemapXml url with
        | none =>
          sitemapLoop env prefixes limit fuel visited'
            { queue := rest, found := acc.found, seenP := acc.seenP }
        | some xml =>
          let acc' := processLocs env prefixes limit visited'
            (extractLocsFromXml xml)
            { queue := rest, found := acc.found, seenP := acc.seenP }
          sitemapLoop env prefixes limit fuel visited' acc'

/-- `collectPartsFromSitemap(prefixes, limit)`: the two hard-coded
sitemap URLs, plus those advertised by robots.txt, drained by
`sitemapLoop`. -/
def collectPartsFromSitemap (env : CrawlEnv) (prefixes : List String) (limit : Nat)
    (sfuel : Nat) : List PartItem :=
  let initQueue := ["https://originalteile.mercedes-benz.de/sitemap.xml",
    "https://originalteile.mercedes-benz.de/sitemap_index.xml"] ++
    (match env.robots with
     | some txt => robotsSitemapUrls txt
     | none => [])
  sitemapLoop env prefixes limit sfuel [] { queue := initQueue, found := [], seenP := [] }

/-- The merge of sitemap items into the run's list (outer dedup plus
limit break). -/
def mergeSitemapItems (limit : Nat) :
    List String → List PartItem → List PartItem → List String × List PartItem
  | seen, items, [] => (seen, items)
  | seen, items, it :: rest =>
    if seen.contains it.partNumber then mergeSitemapItems limit seen items rest
    else
      let seen' := seen ++ [it.partNumber]
      let items' := items ++ [it]
      if limit ≤ items'.length then (seen', items')
      else mergeSitemapItems limit seen' items' rest

/-- `enrichItemsFromProductPage(items)`: items with a truthy url get the
detail availability unconditionally and the detail price when truthy.
Part numbers are untouched. -/
def enrichAll (detail : DetailEnv) (items : List PartItem) : List PartItem :=
  items.map (fun it =>
    if it.url = "" then it
    else
      let meta := fetchDetailMeta detail it.url
      { partNumber := it.partNumber
        name := it.name
        price := match meta.price with
          | some p => if p = "" then it.price else some p
          | none => it.price
        url := it.url
        availability := meta.availability })

/-- `fetchParts(prefixes, limit, { enrichDetails })` (part_003 lines
715-813).  `sfuel` bounds the sitemap loop's iterations (the JS loop
terminates after finitely many queue pops; the model makes that bound
a parameter). -/
def fetchParts (env : CrawlEnv) (prefixes : List String) (limit : Nat)
    (enrichDetails : Bool) (sfuel : Nat) : Except String (List PartItem) :=
  match prefixLoop env limit [] [] prefixes with
  | .error e => .error e
  | .ok (seen, items) =>
    -- the updated `seen` set is dead after the sitemap merge
    let merged :=
      if items.length ≤ 1 && items.length < limit then
        (mergeSitemapItems limit seen items
          (collectPartsFromSitemap env prefixes (limit - items.length) sfuel)).2
      else items
    .ok (if enrichDetails then enrichAll env.detail merged else merged)

/-! ### Snapshot write and the Netlify filter (part_003: `syncBaseSnapshot`;
part_002: `filterSnapshotItems`) -/

/-- `left.partNumber.localeCompare(right.partNumber) <= 0`, modelled as
code-point order (on normalized `[A-Z0-9]*` part numbers the locale
collation and code-point order agree). -/
def itemLeP (a b : PartItem) : Prop := strLeP a.partNumber b.partNumber

instance : DecidableRel itemLeP :=
  fun a b => instDecidableEqBool (strLe a.partNumber b.partNumber) true

/-- `PartsSnapshot = { prefixes, limit, count, generatedAt, items }`. -/
structure PartsSnapshot where
  prefixes : List String
  limit : Nat
  count : Nat
  generatedAt : String
  items : List PartItem

/-- `syncBaseSnapshot(prefixes, limit)`: crawl without detail
enrichment, sort by part number, stamp counts (`nowIso` is the run's
`new Date().toISOString()`). -/
def syncBaseSnapshot (env : CrawlEnv) (prefixes : List String) (limit : Nat)
    (sfuel : Nat) (nowIso : String) : Except String PartsSnapshot :=
  match fetchParts env prefixes limit false sfuel with
  | .error e => .error e
  | .ok items =>
    let sortedItems := List.insertionSort itemLeP items
    .ok { prefixes := prefixes, limit := limit, count := sortedItems.length,
          generatedAt := nowIso, items := sortedItems }

/-- One raw element of the snapshot's `items` array as the Netlify
filter reads it (each accessed property as parsed JSON; `.null` models
a missing property as well). -/
structure SnapItemIn where
  partNumber : Json
  name : Json
  price : Json
  url : Json
  availability : Json

/-- `String(v ?? '')`. -/
def jsFieldStr (v : Json) : String :=
  match v with
  | .null => ""
  | v => jsToString v

/-- The availability object the filter rebuilds: arrays pass the
`typeof === 'object'` test but carry no `status`/`label` properties,
so they coalesce to the defaults like every non-object does. -/
def snapAvail (v : Json) : Json × Json :=
  match v with
  | .obj fs =>
    ((getFieldNN fs "status").getD (.str "unknown"),
     (getFieldNN fs "label").getD (.str "Unknown"))
  | _ => (.str "unknown", .str "Unknown")

/-- One deduplicated entry of `filterSnapshotItems`; the availability
fields stay raw JSON (`?? 'unknown'` keeps whatever non-null value was
stored). -/
structure SnapOutItem where
  partNumber : String
  name : String
  price : Option String
  url : String
  availStatus : Json
  availLabel : Json

def mkSnapOut (pn : String) (it : SnapItemIn) : SnapOutItem :=
  { partNumber := pn
    name := jsFieldStr it.name
    price := match it.price with
      | .str s => some s
      | _ => none
    url := jsFieldStr it.url
    availStatus := (snapAvail it.availability).1
    availLabel := (snapAvail it.availability).2 }

def DEFAULT_PREFIXES : List String := ["A309", "A310"]

/-- The dedup loop of `filterSnapshotItems`: normalize, drop empty /
excluded / non-matching part numbers, first occurrence wins, break
after the insert that fills the limit. -/
def filterLoop (pfxs : List String) (limit : Nat) :
    List SnapItemIn → List SnapOutItem → List SnapOutItem
  | [], acc => acc
  | it :: rest, acc =>
    let pn := normalizePartNumber (jsFieldStr it.partNumber)
    if pn = "" || isExcludedPartNumber pn || !(isAllowedPartNumber pn pfxs) then
      filterLoop pfxs limit rest acc
    else if acc.any (fun o => o.partNumber = pn) then
      filterLoop pfxs limit rest acc
    else
      let acc' := acc ++ [mkSnapOut pn it]
      if limit ≤ acc'.length then acc'
      else filterLoop pfxs limit rest acc'

def outLeP (a b : SnapOutItem) : Prop := strLeP a.partNumber b.partNumber

instance : DecidableRel outLeP :=
  fun a b => instDecidableEqBool (strLe a.partNumber b.partNumber) true

/-- `filterSnapshotItems(items, prefixes, limit)` (part_002 lines
110-143). -/
def filterSnapshotItems (items : List SnapItemIn) (prefixes : List String)
    (limit : Nat) : List SnapOutItem :=
  let eff := if prefixes.length = 0 then DEFAULT_PREFIXES else prefixes
  List.insertionSort outLeP (filterLoop eff limit items [])

/-! ### C7: the JSON-LD single-product page -/

/-- The JSON-LD `Product` block of the C7 scenario. -/
def c7Fields : List (String × Json) :=
  [("@type", Json.str "Product"), ("sku", Json.str "a309-999"),
   ("name", Json.str "Mirror"), ("url", Json.str "https://x.example/p/mirror/detail")]

/-- A page whose markup has no product containers and no usable anchors,
one JSON-LD `Product` script, and whose only inline script body is that
same JSON-LD block (an `ld+json` script carries no `src` attribute, so
the structured-scripts pass parses it again). -/
def c7Page : Page :=
  { containerItems := []
    anchorItems := []
    ldJson := [Json.obj c7Fields]
    scriptJson := [Json.obj c7Fields] }

/-- C7: the claimed scenario does not yield exactly one record: the
JSON-LD pass finds the product, and because fewer than 3 records were
accumulated the structured-scripts fallback runs too and re-extracts
the same product from the very same script body (which also matches
`script:not([src])`), giving two records. -/
theorem c7_counterexample :
    (extractItemsFromHtml (fun rel _ => rel) c7Page "https://x.example/search"
        ["A309"]).length = 2 ∧
      (extractItemsFromHtml (fun rel _ => rel) c7Page "https://x.example/search"
        ["A309"]).map (fun it => it.partNumber) = ["A309999", "A309999"] := by
  constructor
  · rfl
  · rfl

/-- C7 (amended): on a page with no product containers or anchors whose
only JSON-LD block is the single `Product` with sku `a309-999` (and
whose inline-script pass therefore sees the same payload), extraction
with prefix filter `["A309"]` yields exactly two candidate records,
both with partNumber `A309999` — one from the JSON-LD pass and one
from the structured-scripts fallback, for any base URL and URL
resolver. -/
theorem c7_extraction_two_records (resolveU : String → String → String)
    (baseUrl : String) :
    (extractItemsFromHtml resolveU c7Page baseUrl ["A309"]).map
      (fun it => it.partNumber) = ["A309999", "A309999"] := by
  rfl

/-! ### C4: the crawler applies no exclusion filter -/

/-- A page advertising two products, one of them the all-zero
placeholder `A0000000000` (the letter A and ten zero digits). -/
def c4Payload : Json :=
  Json.arr
    [Json.obj [("@type", Json.str "Product"), ("sku", Json.str "A0000000000"),
       ("name", Json.str "Placeholder"), ("url", Json.str "https://x.example/p/zero")],
     Json.obj [("@type", Json.str "Product"), ("sku", Json.str "A000012345"),
       ("name", Json.str "Gasket"), ("url", Json.str "https://x.example/p/gasket")]]

def c4Page : Page :=
  { containerItems := []
    anchorItems := []
    ldJson := [c4Payload]
    scriptJson := [c4Payload] }

def emptyPage : Page :=
  { containerItems := [], anchorItems := [], ldJson := [], scriptJson := [] }

def c4Env : CrawlEnv :=
  { fetchPage := fun u =>
      if u = searchUrl "A0000" then .ok c4Page none else .ok emptyPage none
    robots := none
    sitemapXml := fun _ => none
    detail := fun _ => none
    resolveU := fun rel _ => rel
    pathname := fun _ => none }

/-- The two items the run returns. -/
def c4ZeroItem : PartItem :=
  { partNumber := "A0000000000", name := "Placeholder", price := none,
    url := "https://x.example/p/zero", availability := unknownAvailability }

def c4GasketItem : PartItem :=
  { partNumber := "A000012345", name := "Gasket", price := none,
    url := "https://x.example/p/gasket", availability := unknownAvailability }

/-- C4: `fetchParts` never consults `isExcludedPartNumber`: a crawl
whose search page advertises the placeholder sku `A0000000000` (which
matches the configured prefix `A0000`) returns it as an item even
though it matches the excluded all-zero pattern. -/
theorem c4_counterexample :
    fetchParts c4Env ["A0000"] 100 false 0 = .ok [c4ZeroItem, c4GasketItem] ∧
      isExcludedPartNumber c4ZeroItem.partNumber = true ∧
      strStarts "A0000" c4ZeroItem.partNumber = true := by
  refine ⟨rfl, rfl, rfl⟩

/-- The part of the dedup loop the amended C4 needs: it only ever
appends entries whose normalized part number failed the exclusion
test. -/
lemma filterLoop_not_excluded (pfxs : List String) (limit : Nat) :
    ∀ (l : List SnapItemIn) (acc : List SnapOutItem),
      (∀ x ∈ acc, isExcludedPartNumber x.partNumber = false) →
      ∀ x ∈ filterLoop pfxs limit l acc, isExcludedPartNumber x.partNumber = false := by
  intro l
  induction l with
  | nil => intro acc hacc x hx; exact hacc x hx
  | cons it rest ih =>
    intro acc hacc x hx
    rw [filterLoop] at hx
    split at hx
    · exact ih acc hacc x hx
    · next hguard =>
      split at hx
      · exact ih acc hacc x hx
      · have hexcl : isExcludedPartNumber
            (normalizePartNumber (jsFieldStr it.partNumber)) = false := by
          cases h' : isExcludedPartNumber (normalizePartNumber (jsFieldStr it.partNumber))
          · rfl
          · exact absurd (by rw [h']; simp) hguard
        have hacc' : ∀ x ∈ acc ++
            [mkSnapOut (normalizePartNumber (jsFieldStr it.partNumber)) it],
            isExcludedPartNumber x.partNumber = false := by
          intro x hx'
          rcases List.mem_append.mp hx' with h | h
          · exact hacc x h
          · rcases List.mem_singleton.mp h with rfl
            exact hexcl
        replace hx : x ∈
            (if limit ≤ (acc ++
                [mkSnapOut (normalizePartNumber (jsFieldStr it.partNumber)) it]).length
             then acc ++ [mkSnapOut (normalizePartNumber (jsFieldStr it.partNumber)) it]
             else filterLoop pfxs limit rest (acc ++
                [mkSnapOut (normalizePartNumber (jsFieldStr it.partNumber)) it])) := hx
        split at hx
        · exact hacc' x hx
        · exact ih _ hacc' x hx

/-- Part of C4 that holds (amended): the filtering output never
contains an excluded part number — `filterSnapshotItems` drops every
normalized part number matching `/^A0{10,}$/` before deduplication. -/
theorem filterSnapshotItems_never_excluded (items : List SnapItemIn)
    (prefixes : List String) (limit : Nat) (o : SnapOutItem)
    (hmem : o ∈ filterSnapshotItems items prefixes limit) :
    isExcludedPartNumber o.partNumber = false := by
  unfold filterSnapshotItems at hmem
  have hmem' := (List.perm_insertionSort outLeP _).mem_iff.mp hmem
  exact filterLoop_not_excluded _ limit items [] (by intro x hx; cases hx) o hmem'

/-- A concrete input whose single item survives the filter. -/
def c4SnapIn : SnapItemIn :=
  { partNumber := Json.str "A309-1", name := Json.str "Mirror",
    price := Json.null, url := Json.str "https://x.example/p/m", availability := Json.null }

def c4SnapOut : SnapOutItem := mkSnapOut "A3091" c4SnapIn

theorem filterSnapshotItems_never_excluded_witness :
    isExcludedPartNumber c4SnapOut.partNumber = false := by
  have h : filterSnapshotItems [c4SnapIn] ["A309"] 10 = [c4SnapOut] := rfl
  exact filterSnapshotItems_never_excluded [c4SnapIn] ["A309"] 10 c4SnapOut
    (by rw [h]; exact List.mem_singleton.mpr rfl)

/-! ### C3: the crawl's dedup-and-prefix invariant

The invariant is stated for an arbitrary part-number predicate `Q`;
instantiating `Q` with the prefix property gives C3, instantiating it
trivially gives the duplicate-freeness reused by C10. -/

/-- The run's loop invariant: no duplicate part numbers, every part
number satisfies `Q`, and every part number has been recorded in
`seen`. -/
def CrawlInv (Q : String → Prop) (seen : List String) (items : List PartItem) : Prop :=
  (items.map (fun it => it.partNumber)).Nodup ∧
  (∀ it ∈ items, Q it.partNumber) ∧
  (∀ it ∈ items, it.partNumber ∈ seen)

lemma crawlInv_nil (Q : String → Prop) : CrawlInv Q [] [] :=
  ⟨List.nodup_nil, fun _ h => absurd h (List.not_mem_nil _), fun _ h => absurd h (List.not_mem_nil _)⟩

/-- Inserting a fresh, `Q`-good part number preserves the invariant. -/
lemma crawlInv_insert {Q : String → Prop} {seen : List String} {items : List PartItem}
    (h : CrawlInv Q seen items) (it : PartItem) (hQ : Q it.partNumber)
    (hfresh : it.partNumber ∉ seen) :
    CrawlInv Q (seen ++ [it.partNumber]) (items ++ [it]) := by
  obtain ⟨hnd, hq, hsub⟩ := h
  refine ⟨?_, ?_, ?_⟩
  · rw [List.map_append, List.map_cons, List.map_nil]
    apply List.Nodup.append hnd (List.nodup_singleton _)
    intro a ha hb
    rcases List.mem_singleton.mp hb with rfl
    rcases List.mem_map.mp ha with ⟨j, hj, hpn⟩
    exact hfresh (hpn ▸ hsub j hj)
  · intro x hx
    rcases List.mem_append.mp hx with hx | hx
    · exact hq x hx
    · rcases List.mem_singleton.mp hx with rfl; exact hQ
  · intro x hx
    rcases List.mem_append.mp hx with hx | hx
    · exact List.mem_append_left _ (hsub x hx)
    · rcases List.mem_singleton.mp hx with rfl
      exact List.mem_append_right _ (List.mem_singleton.mpr rfl)

/-- The per-page acceptance loop preserves the invariant, provided the
prefix it checks certifies `Q`. -/
lemma acceptItems_inv {Q : String → Prop} {searchPfx : String} {limit : Nat}
    (hQ : ∀ s, strStarts searchPfx s = true → Q s) :
    ∀ (ex : List PartItem) (seen : List String) (items : List PartItem),
      CrawlInv Q seen items →
      CrawlInv Q (acceptItems searchPfx limit seen items ex).1
        (acceptItems searchPfx limit seen items ex).2 := by
  intro ex
  induction ex with
  | nil => intro seen items h; exact h
  | cons it rest ih =>
    intro seen items h
    rw [acceptItems]
    split
    · exact ih seen items h
    · next hpfx =>
      split
      · exact ih seen items h
      · next hseen =>
        have hst : strStarts searchPfx it.partNumber = true := by simpa using hpfx
        have hfresh : it.partNumber ∉ seen := by simpa using hseen
        have h' := crawlInv_insert h it (hQ _ hst) hfresh
        show CrawlInv Q
          (if limit ≤ (items ++ [it]).length
           then (seen ++ [it.partNumber], items ++ [it])
           else acceptItems searchPfx limit (seen ++ [it.partNumber]) (items ++ [it]) rest).1
          (if limit ≤ (items ++ [it]).length
           then (seen ++ [it.partNumber], items ++ [it])
           else acceptItems searchPfx limit (seen ++ [it.partNumber]) (items ++ [it]) rest).2
        split
        · exact h'
        · exact ih _ _ h'

/-- The pagination loop preserves the invariant. -/
lemma pageLoop_inv {env : CrawlEnv} {Q : String → Prop} {searchPfx : String} {limit : Nat}
    (hQ : ∀ s, strStarts searchPfx s = true → Q s) :
    ∀ (fuel : Nat) (url : String) (visited seen : List String) (items : List PartItem)
      (s' : List String) (i' : List PartItem),
      CrawlInv Q seen items →
      pageLoop env searchPfx limit fuel url visited seen items = .ok (s', i') →
      CrawlInv Q s' i' := by
  intro fuel
  induction fuel with
  | zero =>
    intro url visited seen items s' i' h1 h2
    rw [pageLoop] at h2
    obtain ⟨rfl, rfl⟩ : seen = s' ∧ items = i' := by
      cases h2; exact ⟨rfl, rfl⟩
    exact h1
  | succ fuel ih =>
    intro url visited seen items s' i' h1 h2
    rw [pageLoop] at h2
    dsimp only at h2
    split at h2
    · cases h2; exact h1
    · split at h2
      · cases h2; exact h1
      · next locHeader heq =>
        split at h2
        · cases h2; exact h1
        · exact ih _ _ _ _ _ _ h1 h2
      · cases h2
      · next page next heq =>
        have hacc := @acceptItems_inv Q searchPfx limit hQ
          (extractItemsFromHtml env.resolveU page url [searchPfx]) seen items h1
        split at h2
        · injection h2 with h3
          have h4 := congrArg Prod.fst h3
          have h5 := congrArg Prod.snd h3
          dsimp only at h4 h5
          rw [← h4, ← h5]
          exact hacc
        · exact ih _ _ _ _ _ _ hacc h2

/-- The search-term loop preserves the invariant. -/
lemma termLoop_inv {env : CrawlEnv} {Q : String → Prop} {searchPfx : String} {limit : Nat}
    (hQ : ∀ s, strStarts searchPfx s = true → Q s) :
    ∀ (terms : List String) (seen : List String) (items : List PartItem)
      (s' : List String) (i' : List PartItem),
      CrawlInv Q seen items →
      termLoop env searchPfx limit seen items terms = .ok (s', i') →
      CrawlInv Q s' i' := by
  intro terms
  induction terms with
  | nil =>
    intro seen items s' i' h1 h2
    rw [termLoop] at h2
    cases h2; exact h1
  | cons term terms ih =>
    intro seen items s' i' h1 h2
    rw [termLoop] at h2
    split at h2
    · cases h2; exact h1
    · split at h2
      · cases h2
      · next r heq =>
        exact ih _ _ _ _ (pageLoop_inv hQ _ _ _ _ _ _ _ h1 heq) h2

/-- The outer prefix loop preserves the invariant when every prefix it
iterates certifies `Q`. -/
lemma prefixLoop_inv {env : CrawlEnv} {Q : String → Prop} {limit : Nat} :
    ∀ (pfxs : List String) (seen : List String) (items : List PartItem)
      (s' : List String) (i' : List PartItem),
      (∀ p ∈ pfxs, ∀ s, strStarts p s = true → Q s) →
      CrawlInv Q seen items →
      prefixLoop env limit seen items pfxs = .ok (s', i') →
      CrawlInv Q s' i' := by
  intro pfxs
  induction pfxs with
  | nil =>
    intro seen items s' i' _ h1 h2
    rw [prefixLoop] at h2
    cases h2; exact h1
  | cons p pfxs ih =>
    intro seen items s' i' hQ h1 h2
    rw [prefixLoop] at h2
    split at h2
    · cases h2; exact h1
    · split at h2
      · cases h2
      · next r heq =>
        have hQp : ∀ s, strStarts p s = true → Q s :=
          hQ p (List.mem_cons_self p pfxs)
        have h3 := termLoop_inv hQp _ _ _ _ _ h1 heq
        exact ih _ _ _ _ (fun q hq => hQ q (List.mem_cons_of_mem p hq)) h3 h2

/-- A per-prefix href scan only answers part numbers starting with its
prefix. -/
lemma hrefPartForPfx_sound {pfx : String} {nh : List Char} {pn : String}
    (h : hrefPartForPfx pfx nh = some pn) : strStarts pfx pn = true := by
  unfold hrefPartForPfx at h
  obtain ⟨m, _, hm⟩ := List.exists_of_findSome?_eq_some h
  dsimp only at hm
  split at hm
  · cases hm; assumption
  · cases hm

/-- With a non-empty prefix list, `extractPartNumberFromHref` only
answers part numbers starting with one of the prefixes. -/
lemma extractPartNumberFromHref_sound {href : String} {prefixes : List String} {pn : String}
    (hne : prefixes ≠ []) (h : extractPartNumberFromHref href prefixes = some pn) :
    ∃ p ∈ prefixes, strStarts p pn = true := by
  unfold extractPartNumberFromHref at h
  have hempty : prefixes.isEmpty = false := by
    cases prefixes with
    | nil => exact absurd rfl hne
    | cons a l => rfl
  rw [hempty] at h
  dsimp only at h
  obtain ⟨p, hp, hsome⟩ := List.exists_of_findSome?_eq_some h
  exact ⟨p, hp, hrefPartForPfx_sound hsome⟩

/-- The per-loc sitemap loop only adds `Q`-good items. -/
lemma processLocs_found {env : CrawlEnv} {prefixes : List String} {limit : Nat}
    {Q : String → Prop}
    (hQ : ∀ (loc : String) (pn : String),
      extractPartNumberFromHref loc prefixes = some pn → Q pn) :
    ∀ (locs : List String) (visited : List String) (acc : SmAcc),
      (∀ it ∈ acc.found, Q it.partNumber) →
      ∀ it ∈ (processLocs env prefixes limit visited locs acc).found, Q it.partNumber := by
  intro locs
  induction locs with
  | nil => intro visited acc hacc it hit; exact hacc it hit
  | cons loc locs ih =>
    intro visited acc hacc it hit
    rw [processLocs] at hit
    split at hit
    · exact ih visited _ (by split <;> exact hacc) it hit
    · split at hit
      · exact ih visited acc hacc it hit
      · next pn heq =>
        split at hit
        · exact ih visited acc hacc it hit
        · have hacc' : ∀ x ∈ (acc.found ++
              [{ partNumber := pn, name := guessNameFromUrl (env.pathname loc),
                 url := loc, availability := unknownAvailability }]),
              Q x.partNumber := by
            intro x hx
            rcases List.mem_append.mp hx with hx | hx
            · exact hacc x hx
            · rcases List.mem_singleton.mp hx with rfl
              exact hQ loc pn heq
          dsimp only at hit
          split at hit
          · exact hacc' it hit
          · exact ih visited _ hacc' it hit

/-- The sitemap drain only returns `Q`-good items. -/
lemma sitemapLoop_found {env : CrawlEnv} {prefixes : List String} {limit : Nat}
    {Q : String → Prop}
    (hQ : ∀ (loc : String) (pn : String),
      extractPartNumberFromHref loc prefixes = some pn → Q pn) :
    ∀ (fuel : Nat) (visited : List String) (acc : SmAcc),
      (∀ it ∈ acc.found, Q it.partNumber) →
      ∀ it ∈ sitemapLoop env prefixes limit fuel visited acc, Q it.partNumber := by
  intro fuel
  induction fuel with
  | zero => intro visited acc hacc it hit; exact hacc it (by rwa [sitemapLoop] at hit)
  | succ fuel ih =>
    intro visited acc hacc it hit
    rw [sitemapLoop] at hit
    dsimp only at hit
    split at hit
    · exact hacc it hit
    · next url rest hque =>
      split at hit
      · exact hacc it hit
      · split at hit
        · exact ih visited
            { queue := rest, found := acc.found, seenP := acc.seenP } hacc it hit
        · split at hit
          · exact ih (visited ++ [url])
              { queue := rest, found := acc.found, seenP := acc.seenP } hacc it hit
          · next xml heq =>
            exact ih (visited ++ [url])
              (processLocs env prefixes limit (visited ++ [url]) (extractLocsFromXml xml)
                { queue := rest, found := acc.found, seenP := acc.seenP })
              (processLocs_found hQ _ _ _ hacc) it hit

/-- Everything `collectPartsFromSitemap` returns is `Q`-good. -/
lemma collectPartsFromSitemap_found {env : CrawlEnv} {prefixes : List String}
    {limit sfuel : Nat} {Q : String → Prop}
    (hQ : ∀ (loc : String) (pn : String),
      extractPartNumberFromHref loc prefixes = some pn → Q pn) :
    ∀ it ∈ collectPartsFromSitemap env prefixes limit sfuel, Q it.partNumber := by
  intro it hit
  exact sitemapLoop_found hQ sfuel [] _ (fun x hx => absurd hx (List.not_mem_nil _)) it hit

/-- Merging sitemap items preserves the invariant when each of them is
`Q`-good. -/
lemma mergeSitemapItems_inv {Q : String → Prop} {limit : Nat} :
    ∀ (sits : List PartItem) (seen : List String) (items : List PartItem),
      (∀ it ∈ sits, Q it.partNumber) →
      CrawlInv Q seen items →
      CrawlInv Q (mergeSitemapItems limit seen items sits).1
        (mergeSitemapItems limit seen items sits).2 := by
  intro sits
  induction sits with
  | nil => intro seen items _ h; exact h
  | cons it rest ih =>
    intro seen items hQs h
    rw [mergeSitemapItems]
    split
    · exact ih seen items (fun x hx => hQs x (List.mem_cons_of_mem it hx)) h
    · next hseen =>
      have hfresh : it.partNumber ∉ seen := by simpa using hseen
      have h' := crawlInv_insert h it (hQs it (List.mem_cons_self it rest)) hfresh
      show CrawlInv Q
        (if limit ≤ (items ++ [it]).length
         then (seen ++ [it.partNumber], items ++ [it])
         else mergeSitemapItems limit (seen ++ [it.partNumber]) (items ++ [it]) rest).1
        (if limit ≤ (items ++ [it]).length
         then (seen ++ [it.partNumber], items ++ [it])
         else mergeSitemapItems limit (seen ++ [it.partNumber]) (items ++ [it]) rest).2
      split
      · exact h'
      · exact ih _ _ (fun x hx => hQs x (List.mem_cons_of_mem it hx)) h'

/-- Enrichment rewrites prices and availability but the part-number
column is untouched. -/
lemma enrichAll_partNumbers (detail : DetailEnv) (items : List PartItem) :
    (enrichAll detail items).map (fun it => it.partNumber) =
      items.map (fun it => it.partNumber) := by
  unfold enrichAll
  rw [List.map_map]
  apply List.map_congr_left
  intro it _
  show (fun it => it.partNumber) (if it.url = "" then it else _) = it.partNumber
  split <;> rfl

lemma enrichAll_forall {detail : DetailEnv} {l : List PartItem} {Q : String → Prop}
    (h : ∀ it ∈ l, Q it.partNumber) :
    ∀ it ∈ enrichAll detail l, Q it.partNumber := by
  intro it' hit'
  rcases List.mem_map.mp hit' with ⟨it, hit, rfl⟩
  show Q (if it.url = "" then it else _).partNumber
  have hpn : (if it.url = "" then it else
      { partNumber := it.partNumber
        name := it.name
        price := match (fetchDetailMeta detail it.url).price with
          | some p => if p = "" then it.price else some p
          | none => it.price
        url := it.url
        availability := (fetchDetailMeta detail it.url).availability }).partNumber
      = it.partNumber := by
    split <;> rfl
  rw [hpn]
  exact h it hit

/-- The run-level invariant of `fetchParts`, for any part-number
predicate certified by both acceptance paths. -/
lemma fetchParts_inv {env : CrawlEnv} {Q : String → Prop} {prefixes : List String}
    {limit : Nat} {enrichDetails : Bool} {sfuel : Nat} {out : List PartItem}
    (hQsearch : ∀ p ∈ prefixes, ∀ s, strStarts p s = true → Q s)
    (hQhref : ∀ (loc : String) (pn : String),
      extractPartNumberFromHref loc prefixes = some pn → Q pn)
    (h : fetchParts env prefixes limit enrichDetails sfuel = .ok out) :
    (out.map (fun it => it.partNumber)).Nodup ∧ ∀ it ∈ out, Q it.partNumber := by
  unfold fetchParts at h
  split at h
  · cases h
  · next seen items heq =>
    dsimp only at h
    injection h with h2
    subst h2
    have hinv := prefixLoop_inv prefixes [] [] seen items hQsearch (crawlInv_nil Q) heq
    have hmerged : CrawlInv Q
        (if (items.length ≤ 1 && items.length < limit) = true
         then (mergeSitemapItems limit seen items
           (collectPartsFromSitemap env prefixes (limit - items.length) sfuel)).1
         else seen)
        (if (items.length ≤ 1 && items.length < limit) = true
         then (mergeSitemapItems limit seen items
           (collectPartsFromSitemap env prefixes (limit - items.length) sfuel)).2
         else items) := by
      split
      · exact mergeSitemapItems_inv _ seen items
          (collectPartsFromSitemap_found hQhref) hinv
      · exact hinv
    obtain ⟨hnd, hq, _⟩ := hmerged
    constructor
    · split
      · rw [enrichAll_partNumbers]
        exact hnd
      · exact hnd
    · split
      · apply enrichAll_forall
        intro it hit
        apply hq it
        revert hit
        split <;> (intro hit; exact hit)
      · intro it hit
        apply hq it
        revert hit
        split <;> (intro hit; exact hit)

/-- C3: every crawler run that completes returns a list with no two
items sharing a part number, and (for a non-empty prefix list) every
item's part number starts with one of the requested prefixes — both
the paginated-search items and the sitemap-fallback items pass through
the same `seen` dedup set and prefix checks. -/
theorem fetchParts_nodup_prefix_property (env : CrawlEnv) (prefixes : List String)
    (limit : Nat) (enrichDetails : Bool) (sfuel : Nat) (out : List PartItem)
    (hne : prefixes ≠ [])
    (hok : fetchParts env prefixes limit enrichDetails sfuel = .ok out) :
    (out.map (fun it => it.partNumber)).Nodup ∧
      ∀ it ∈ out, ∃ p ∈ prefixes, strStarts p it.partNumber = true :=
  fetchParts_inv (fun p hp _ hs => ⟨p, hp, hs⟩)
    (fun _ _ h' => extractPartNumberFromHref_sound hne h') hok

/-- A one-product search page for the witness run. -/
def c3Payload : Json :=
  Json.obj [("@type", Json.str "Product"), ("sku", Json.str "A309-123"),
    ("name", Json.str "Lamp"), ("url", Json.str "https://x.example/p/lamp")]

def c3Page : Page :=
  { containerItems := [], anchorItems := [], ldJson := [c3Payload], scriptJson := [] }

def c3Env : CrawlEnv :=
  { fetchPage := fun u =>
      if u = searchUrl "A309" then .ok c3Page none else .ok emptyPage none
    robots := none
    sitemapXml := fun _ => none
    detail := fun _ => none
    resolveU := fun rel _ => rel
    pathname := fun _ => none }

def c3Out : List PartItem :=
  match fetchParts c3Env ["A309"] 100 false 0 with
  | .ok l => l
  | .error _ => []

theorem fetchParts_nodup_prefix_property_witness :
    (c3Out.map (fun it => it.partNumber)).Nodup ∧
      ∀ it ∈ c3Out, ∃ p ∈ ["A309"], strStarts p it.partNumber = true :=
  fetchParts_nodup_prefix_property c3Env ["A309"] 100 false 0 c3Out (by decide) rfl

/-! ### C10: snapshot ordering invariants -/

lemma charListLe_total : ∀ (a b : List Char), charListLe a b = true ∨ charListLe b a = true := by
  intro a
  induction a with
  | nil => intro b; exact Or.inl rfl
  | cons x xs ih =>
    intro b
    cases b with
    | nil => exact Or.inr rfl
    | cons y ys =>
      by_cases h1 : x.toNat < y.toNat
      · left; rw [charListLe, if_pos h1]
      · by_cases h2 : y.toNat < x.toNat
        · right; rw [charListLe, if_pos h2]
        · rcases ih ys with h | h
          · left; rw [charListLe, if_neg h1, if_neg h2]; exact h
          · right; rw [charListLe, if_neg h2, if_neg h1]; exact h

lemma charListLe_trans :
    ∀ (a b c : List Char), charListLe a b = true → charListLe b c = true →
      charListLe a c = true := by
  intro a
  induction a with
  | nil => intro b c _ _; rfl
  | cons x xs ih =>
    intro b c hab hbc
    cases b with
    | nil => rw [charListLe] at hab; cases hab
    | cons y ys =>
      cases c with
      | nil => rw [charListLe] at hbc; cases hbc
      | cons z zs =>
        have hab' : x.toNat < y.toNat ∨ (x.toNat = y.toNat ∧ charListLe xs ys = true) := by
          rw [charListLe] at hab
          by_cases h1 : x.toNat < y.toNat
          · exact Or.inl h1
          · by_cases h2 : y.toNat < x.toNat
            · rw [if_neg h1, if_pos h2] at hab; cases hab
            · rw [if_neg h1, if_neg h2] at hab; exact Or.inr ⟨by omega, hab⟩
        have hbc' : y.toNat < z.toNat ∨ (y.toNat = z.toNat ∧ charListLe ys zs = true) := by
          rw [charListLe] at hbc
          by_cases h1 : y.toNat < z.toNat
          · exact Or.inl h1
          · by_cases h2 : z.toNat < y.toNat
            · rw [if_neg h1, if_pos h2] at hbc; cases hbc
            · rw [if_neg h1, if_neg h2] at hbc; exact Or.inr ⟨by omega, hbc⟩
        rw [charListLe]
        rcases hab' with h1 | ⟨h1, htl1⟩ <;> rcases hbc' with h2 | ⟨h2, htl2⟩
        · rw [if_pos (by omega : x.toNat < z.toNat)]
        · rw [if_pos (by omega : x.toNat < z.toNat)]
        · rw [if_pos (by omega : x.toNat < z.toNat)]
        · rw [if_neg (by omega : ¬ x.toNat < z.toNat),
            if_neg (by omega : ¬ z.toNat < x.toNat)]
          exact ih ys zs htl1 htl2

instance : IsTotal PartItem itemLeP := ⟨fun a b => charListLe_total a.partNumber.data b.partNumber.data⟩

instance : IsTrans PartItem itemLeP :=
  ⟨fun a b c hab hbc => charListLe_trans a.partNumber.data b.partNumber.data
    c.partNumber.data hab hbc⟩

instance : IsTotal SnapOutItem outLeP := ⟨fun a b => charListLe_total a.partNumber.data b.partNumber.data⟩

instance : IsTrans SnapOutItem outLeP :=
  ⟨fun a b c hab hbc => charListLe_trans a.partNumber.data b.partNumber.data
    c.partNumber.data hab hbc⟩

/-- The dedup loop keeps the part-number column duplicate-free. -/
lemma filterLoop_nodup (pfxs : List String) (limit : Nat) :
    ∀ (l : List SnapItemIn) (acc : List SnapOutItem),
      (acc.map (fun o => o.partNumber)).Nodup →
      ((filterLoop pfxs limit l acc).map (fun o => o.partNumber)).Nodup := by
  intro l
  induction l with
  | nil => intro acc hacc; exact hacc
  | cons it rest ih =>
    intro acc hacc
    rw [filterLoop]
    split
    · exact ih acc hacc
    · split
      · exact ih acc hacc
      · next hdup =>
        have hfresh : normalizePartNumber (jsFieldStr it.partNumber) ∉
            acc.map (fun o => o.partNumber) := by
          have hnd : ∀ o ∈ acc,
              ¬ (o.partNumber = normalizePartNumber (jsFieldStr it.partNumber)) := by
            simpa using hdup
          intro hmem
          rcases List.mem_map.mp hmem with ⟨o, ho, hpn⟩
          exact hnd o ho hpn
        have hacc' : ((acc ++
            [mkSnapOut (normalizePartNumber (jsFieldStr it.partNumber)) it]).map
              (fun o => o.partNumber)).Nodup := by
          rw [List.map_append, List.map_cons, List.map_nil]
          apply List.Nodup.append hacc (List.nodup_singleton _)
          intro a ha hb
          rcases List.mem_singleton.mp hb with rfl
          exact hfresh ha
        show ((if limit ≤ (acc ++
            [mkSnapOut (normalizePartNumber (jsFieldStr it.partNumber)) it]).length
          then acc ++ [mkSnapOut (normalizePartNumber (jsFieldStr it.partNumber)) it]
          else filterLoop pfxs limit rest (acc ++
            [mkSnapOut (normalizePartNumber (jsFieldStr it.partNumber)) it])).map
              (fun o => o.partNumber)).Nodup
        split
        · exact hacc'
        · exact ih _ hacc'

/-- `fetchParts` alone already guarantees duplicate-freeness. -/
lemma fetchParts_ok_nodup {env : CrawlEnv} {prefixes : List String}
    {limit : Nat} {enrichDetails : Bool} {sfuel : Nat} {out : List PartItem}
    (h : fetchParts env prefixes limit enrichDetails sfuel = .ok out) :
    (out.map (fun it => it.partNumber)).Nodup :=
  (@fetchParts_inv env (fun _ => True) prefixes limit enrichDetails sfuel out
    (fun _ _ _ _ => trivial) (fun _ _ _ => trivial) h).1

/-- C10: every base snapshot written by `syncBaseSnapshot` lists its
items in ascending part-number order with no duplicate part numbers
and a `count` equal to the item count, and every `filterSnapshotItems`
result is likewise sorted and duplicate-free. -/
theorem snapshot_and_filter_invariants :
    (∀ (env : CrawlEnv) (prefixes : List String) (limit sfuel : Nat) (nowIso : String)
        (snap : PartsSnapshot),
        syncBaseSnapshot env prefixes limit sfuel nowIso = .ok snap →
        List.Sorted itemLeP snap.items ∧
        (snap.items.map (fun it => it.partNumber)).Nodup ∧
        snap.count = snap.items.length) ∧
    (∀ (items : List SnapItemIn) (prefixes : List String) (limit : Nat),
        List.Sorted outLeP (filterSnapshotItems items prefixes limit) ∧
        ((filterSnapshotItems items prefixes limit).map
          (fun o => o.partNumber)).Nodup) := by
  constructor
  · intro env prefixes limit sfuel nowIso snap h
    unfold syncBaseSnapshot at h
    split at h
    · cases h
    · next items heq =>
      dsimp only at h
      injection h with h2
      subst h2
      refine ⟨?_, ?_, rfl⟩
      · exact List.sorted_insertionSort itemLeP items
      · have hperm := (List.perm_insertionSort itemLeP items).map
          (fun it => it.partNumber)
        exact hperm.nodup_iff.mpr (fetchParts_ok_nodup heq)
  · intro items prefixes limit
    unfold filterSnapshotItems
    refine ⟨List.sorted_insertionSort outLeP _, ?_⟩
    have hperm := (List.perm_insertionSort outLeP
      (filterLoop (if prefixes.length = 0 then DEFAULT_PREFIXES else prefixes)
        limit items [])).map (fun o => o.partNumber)
    exact hperm.nodup_iff.mpr
      (filterLoop_nodup _ limit items [] List.nodup_nil)

/-- A one-product search page for the C10 witness run. -/
def c10Payload : Json :=
  Json.obj [("@type", Json.str "Product"), ("sku", Json.str "A310-77"),
    ("name", Json.str "Grille"), ("url", Json.str "https://x.example/p/grille")]

def c10Page : Page :=
  { containerItems := [], anchorItems := [], ldJson := [c10Payload], scriptJson := [] }

def c10Env : CrawlEnv :=
  { fetchPage := fun u =>
      if u = searchUrl "A310" then .ok c10Page none else .ok emptyPage none
    robots := none
    sitemapXml := fun _ => none
    detail := fun _ => none
    resolveU := fun rel _ => rel
    pathname := fun _ => none }

def c10Snap : PartsSnapshot :=
  match syncBaseSnapshot c10Env ["A310"] 100 0 "2024-01-01T00:00:00.000Z" with
  | .ok s => s
  | .error _ => ⟨[], 0, 0, "", []⟩

def c10SnapIn : SnapItemIn :=
  { partNumber := Json.str "a310 55", name := Json.str "Hose",
    price := Json.str "19,99 EUR", url := Json.str "https://x.example/p/hose",
    availability := Json.null }

theorem snapshot_and_filter_invariants_witness :
    (List.Sorted itemLeP c10Snap.items ∧
      (c10Snap.items.map (fun it => it.partNumber)).Nodup ∧
      c10Snap.count = c10Snap.items.length) ∧
    (List.Sorted outLeP (filterSnapshotItems [c10SnapIn] [] 10) ∧
      ((filterSnapshotItems [c10SnapIn] [] 10).map (fun o => o.partNumber)).Nodup) :=
  ⟨snapshot_and_filter_invariants.1 c10Env ["A310"] 100 0 "2024-01-01T00:00:00.000Z"
      c10Snap rfl,
   snapshot_and_filter_invariants.2 [c10SnapIn] [] 10⟩

end MbParts
